import Mathlib

/-!
# Fht IPC backend: the mirror kept by IPC::parseIPC

A shallow embedding of src/modules/fht/backend.cpp.

* Value models Json::Value of jsoncpp, the library the backend stores its
  mirror in.  An object is the list of its members in the order of the
  underlying std::map (ascending by key, byte-wise); a double is the rational
  number it denotes.
* A C++ exception is an explicit result: every mutating routine returns the
  state it leaves behind together with the exception it raised, if any, so a
  routine that throws half way keeps the part it had already written.
* The JSON text parser (util::JsonParser) and the printing of a double are not
  part of backend.cpp; they are parameters (parser_, valueToString).
-/

namespace Fht

/-- Exceptions that can leave parseIPC; all of them derive from std::exception. -/
inductive Exc where
  | runtime_error
  | logic_error
  | invalid_argument
  | out_of_range
  deriving DecidableEq, Repr

/-- Json::Value. -/
inductive Value where
  | nullValue
  | intValue (i : Int)
  | uintValue (u : Nat)
  | realValue (r : Rat)
  | stringValue (s : String)
  | booleanValue (b : Bool)
  | arrayValue (xs : List Value)
  | objectValue (ms : List (String × Value))

/-- Json::Value::minInt. -/
def minInt : Int := -2147483648

/-- Json::Value::maxInt. -/
def maxInt : Int := 2147483647

/-- Order of the keys of a Json object (CZString::operator<): byte-wise
lexicographic, a proper initial segment first. -/
def keyLt : List Char → List Char → Bool
  | [], [] => false
  | [], _ :: _ => true
  | _ :: _, [] => false
  | a :: as, b :: bs =>
    if a.toNat < b.toNat then true
    else if b.toNat < a.toNat then false
    else keyLt as bs

namespace Value

/-- Json::Value::find on the member list of an object. -/
def find (ms : List (String × Value)) (key : String) : Option Value :=
  match ms with
  | [] => none
  | (k, v) :: rest => if k = key then some v else find rest key

/-- Insertion into the member map of an object: an existing member is
overwritten, a new one goes to its place in key order. -/
def insertMember (key : String) (val : Value) :
    List (String × Value) → List (String × Value)
  | [] => [(key, val)]
  | (k, v) :: rest =>
    if k = key then (key, val) :: rest
    else if keyLt key.toList k.toList then (key, val) :: (k, v) :: rest
    else (k, v) :: insertMember key val rest

/-- Json::Value::isNull. -/
def isNull : Value → Bool
  | nullValue => true
  | _ => false

/-- The const operator[] with a string key: the member, null when there is
none; a value that is neither an object nor null raises Json::LogicError. -/
def get (v : Value) (key : String) : Except Exc Value :=
  match v with
  | nullValue => .ok nullValue
  | objectValue ms => .ok ((find ms key).getD nullValue)
  | _ => .error .logic_error

/-- Json::Value::isMember. -/
def isMember (v : Value) (key : String) : Except Exc Bool :=
  match v with
  | nullValue => .ok false
  | objectValue ms => .ok (find ms key).isSome
  | _ => .error .logic_error

/-- Json::Value::getMemberNames. -/
def getMemberNames (v : Value) : Except Exc (List String) :=
  match v with
  | nullValue => .ok []
  | objectValue ms => .ok (ms.map Prod.fst)
  | _ => .error .logic_error

/-- The non-const operator[] used for reading (resolveReference): null turns
into an object and a missing member is created as null.  Returns the value
after the access and the member. -/
def resolveReference (v : Value) (key : String) : Except Exc (Value × Value) :=
  match v with
  | nullValue => .ok (objectValue [(key, nullValue)], nullValue)
  | objectValue ms =>
    match find ms key with
    | some x => .ok (objectValue ms, x)
    | none => .ok (objectValue (insertMember key nullValue ms), nullValue)
  | _ => .error .logic_error

/-- The assignment v[key] = val through the non-const operator[]. -/
def assign (v : Value) (key : String) (val : Value) : Except Exc Value :=
  match v with
  | nullValue => .ok (objectValue [(key, val)])
  | objectValue ms => .ok (objectValue (insertMember key val ms))
  | _ => .error .logic_error

/-- Json::Value::asInt. -/
def asInt : Value → Except Exc Int
  | nullValue => .ok 0
  | intValue i => if minInt ≤ i ∧ i ≤ maxInt then .ok i else .error .logic_error
  | uintValue u => if (u : Int) ≤ maxInt then .ok (u : Int) else .error .logic_error
  | realValue r =>
    if (minInt : Rat) ≤ r ∧ r ≤ (maxInt : Rat) then .ok (Int.tdiv r.num (r.den : Int))
    else .error .logic_error
  | booleanValue b => .ok (if b then 1 else 0)
  | _ => .error .logic_error

/-- Json::Value::asString; valueToString prints a double. -/
def asString (valueToString : Rat → String) : Value → Except Exc String
  | nullValue => .ok ""
  | stringValue s => .ok s
  | booleanValue b => .ok (if b then "true" else "false")
  | intValue i => .ok (toString i)
  | uintValue u => .ok (toString u)
  | realValue r => .ok (valueToString r)
  | _ => .error .logic_error

end Value

open Value

/-- The isspace of the C locale, as used by strtol. -/
def isspace (c : Char) : Bool :=
  c = ' ' || c = '\t' || c = '\n' || c = '\x0b' || c = '\x0c' || c = '\r'

/-- Value of a run of decimal digits. -/
def digitsValue (ds : List Char) : Nat :=
  ds.foldl (fun acc c => 10 * acc + (c.toNat - 48)) 0

/-- The range check of std::stoi: a value outside int is std::out_of_range. -/
def checkInt (n : Int) : Except Exc Int :=
  if minInt ≤ n ∧ n ≤ maxInt then .ok n else .error .out_of_range

/-- The end of std::stoi: no digit at all is std::invalid_argument. -/
def convertDigits (neg : Bool) (ds : List Char) : Except Exc Int :=
  if ds = [] then .error .invalid_argument
  else checkInt (if neg then -(digitsValue ds : Int) else (digitsValue ds : Int))

/-- The std::stoi of a string in base 10: leading white space, an optional
sign, then the longest run of digits; what follows the digits is ignored. -/
def stoi (s : String) : Except Exc Int :=
  let cs := s.toList.dropWhile isspace
  let body := if cs.head? = some '-' ∨ cs.head? = some '+' then cs.tail else cs
  convertDigits (decide (cs.head? = some '-')) (body.takeWhile Char.isDigit)

/-- An EventHandler pointer; none is nullptr. -/
abbrev EventHandlerPtr := Option Nat

/-- The data members of IPC that parseIPC and the registry routines use. -/
structure IPC where
  workspaces_ : List Value
  windows_ : List Value
  callbacks_ : List (String × EventHandlerPtr)

/-- One call handler->onEvent(ev), with the mirror as it stands when the call
is made. -/
structure Call where
  handler : EventHandlerPtr
  ev : Value
  workspaces : List Value
  windows : List Value

/-- What a run of parseIPC leaves: the object, the onEvent calls made in order,
and the exception that ended the run, if any. -/
structure Outcome where
  self : IPC
  calls : List Call
  thrown : Option Exc

/-- Two statements on one value, the second skipped when the first throws. -/
def andThen (f g : Value → Value × Option Exc) (v : Value) : Value × Option Exc :=
  match f v with
  | (v1, none) => g v1
  | (v1, some e) => (v1, some e)

/-- The statement target[key] = src[srcKey], src const and target not; the
right operand is evaluated first. -/
def copyMember (key srcKey : String) (src : Value) (target : Value) :
    Value × Option Exc :=
  match src.get srcKey with
  | .error e => (target, some e)
  | .ok x =>
    match target.assign key x with
    | .error e => (target, some e)
    | .ok t => (t, none)

/-- The six assignments that copy the workspace fields of a payload. -/
def copyWorkspaceFields (src : Value) : Value → Value × Option Exc :=
  andThen (copyMember "output" "output" src)
  (andThen (copyMember "windows" "windows" src)
  (andThen (copyMember "active_window_idx" "active-window-idx" src)
  (andThen (copyMember "fullscreen_window_idx" "fullscreen-window-idx" src)
  (andThen (copyMember "mwfact" "mwfact" src)
  (copyMember "nmaster" "nmaster" src)))))

/-- The ten assignments that copy the window fields of a payload. -/
def copyWindowFields (src : Value) : Value → Value × Option Exc :=
  andThen (copyMember "title" "title" src)
  (andThen (copyMember "app_id" "app-id" src)
  (andThen (copyMember "workspace_id" "workspace-id" src)
  (andThen (copyMember "size" "size" src)
  (andThen (copyMember "location" "location" src)
  (andThen (copyMember "fullscreened" "fullscreened" src)
  (andThen (copyMember "maximized" "maximized" src)
  (andThen (copyMember "tiled" "tiled" src)
  (andThen (copyMember "activated" "activated" src)
  (copyMember "focused" "focused" src)))))))))

/-- The expression a["id"].asInt() on a const reference. -/
def idOf (v : Value) : Except Exc Int :=
  match v.get "id" with
  | .error e => .error e
  | .ok x => x.asInt

/-- The keys the comparator of std::sort reads, one per element. -/
def sortKeys : List Value → Except Exc (List (Int × Value))
  | [] => .ok []
  | v :: vs =>
    match idOf v with
    | .error e => .error e
    | .ok i =>
      match sortKeys vs with
      | .error e => .error e
      | .ok rest => .ok ((i, v) :: rest)

/-- The call std::sort(begin, end, a.id < b.id).  The result is an ascending
arrangement of the elements.  std::sort leaves the order of elements with
equal ids unspecified; here they keep their order, which is one of the
arrangements it may return.  What is proved about the arrangement is proved
either up to permutation or for pairwise distinct ids, where the ascending
arrangement is the only one.  A comparator that throws leaves the elements in
place. -/
def sortById (ws : List Value) : List Value × Option Exc :=
  if ws.length < 2 then (ws, none)
  else
    match sortKeys ws with
    | .error e => (ws, some e)
    | .ok kvs => ((kvs.insertionSort (fun a b => a.1 ≤ b.1)).map Prod.snd, none)

/-- The loop of the workspaces event over payload.getMemberNames(): each pass
reads the member, starts the entry with the id that std::stoi reads from the
member name, copies the six fields and pushes the entry; a pass that throws
pushes nothing and ends the loop. -/
def pushWorkspaces (payload : Value) : List String → List Value → List Value × Option Exc
  | [], acc => (acc, none)
  | member :: rest, acc =>
    match payload.get member with
    | .error e => (acc, some e)
    | .ok ws =>
      match stoi member with
      | .error e => (acc, some e)
      | .ok id =>
        match copyWorkspaceFields ws (objectValue [("id", intValue id)]) with
        | (_, some e) => (acc, some e)
        | (workspace, none) => pushWorkspaces payload rest (acc ++ [workspace])

/-- The loop of the windows event over payload.getMemberNames(), built like
the loop of the workspaces event. -/
def pushWindows (payload : Value) : List String → List Value → List Value × Option Exc
  | [], acc => (acc, none)
  | member :: rest, acc =>
    match payload.get member with
    | .error e => (acc, some e)
    | .ok win =>
      match stoi member with
      | .error e => (acc, some e)
      | .ok id =>
        match copyWindowFields win (objectValue [("id", intValue id)]) with
        | (_, some e) => (acc, some e)
        | (window, none) => pushWindows payload rest (acc ++ [window])

/-- A range-for over a vector by reference; the loop stops at the element whose
body throws. -/
def forEach (body : Value → Value × Option Exc) : List Value → List Value × Option Exc
  | [] => ([], none)
  | w :: ws =>
    match body w with
    | (w1, some e) => (w1 :: ws, some e)
    | (w1, none) => ((w1 :: (forEach body ws).1), (forEach body ws).2)

/-- The statement ws[flag] = (ws["id"].asInt() == id) on a non-const ws. -/
def setFlagById (flag : String) (id : Int) (ws : Value) : Value × Option Exc :=
  match ws.resolveReference "id" with
  | .error e => (ws, some e)
  | .ok (ws1, idv) =>
    match idv.asInt with
    | .error e => (ws1, some e)
    | .ok i =>
      match ws1.assign flag (booleanValue (decide (i = id))) with
      | .error e => (ws1, some e)
      | .ok ws2 => (ws2, none)

/-- The statement win["focused"] = (win["id"].asInt() == id.asInt()). -/
def setFocusedById (id : Value) (win : Value) : Value × Option Exc :=
  match win.resolveReference "id" with
  | .error e => (win, some e)
  | .ok (win1, idv) =>
    match idv.asInt with
    | .error e => (win1, some e)
    | .ok i =>
      match id.asInt with
      | .error e => (win1, some e)
      | .ok k =>
        match win1.assign "focused" (booleanValue (decide (i = k))) with
        | .error e => (win1, some e)
        | .ok win2 => (win2, none)

/-- The statement win["focused"] = false. -/
def clearFocused (win : Value) : Value × Option Exc :=
  match win.assign "focused" (booleanValue false) with
  | .error e => (win, some e)
  | .ok win1 => (win1, none)

/-- The call std::find_if(begin, end, ws.id == id): the position of the first
match, none for end(). -/
def findIfId (id : Int) : List Value → Except Exc (Option Nat)
  | [] => .ok none
  | w :: ws =>
    match idOf w with
    | .error e => .error e
    | .ok i =>
      if i = id then .ok (some 0)
      else
        match findIfId id ws with
        | .error e => .error e
        | .ok r => .ok (r.map (· + 1))

/-- Statements executed on the element an iterator points to. -/
def modifyAt (body : Value → Value × Option Exc) : Nat → List Value → List Value × Option Exc
  | _, [] => ([], none)
  | 0, w :: ws => (((body w).1 :: ws), (body w).2)
  | n + 1, w :: ws => ((w :: (modifyAt body n ws).1), (modifyAt body n ws).2)

/-- The block of parseIPC that runs under lockData(): the mutation of the
mirror selected by the event name.  Returns the object as the block leaves it
and the exception that ended the block, if any. -/
def mutate (eventName : String) (payload : Value) (self : IPC) : IPC × Option Exc :=
  if eventName = "workspaces" then
    -- workspaces_.clear() comes first
    match payload.getMemberNames with
    | .error e => ({ self with workspaces_ := [] }, some e)
    | .ok names =>
      match pushWorkspaces payload names [] with
      | (ws, some e) => ({ self with workspaces_ := ws }, some e)
      | (ws, none) => ({ self with workspaces_ := (sortById ws).1 }, (sortById ws).2)
  else if eventName = "active-workspace-changed" then
    match idOf payload with
    | .error e => (self, some e)
    | .ok id =>
      let r := forEach (andThen (setFlagById "is_active" id) (setFlagById "is_focused" id))
        self.workspaces_
      ({ self with workspaces_ := r.1 }, r.2)
  else if eventName = "workspace-changed" then
    match idOf payload with
    | .error e => (self, some e)
    | .ok id =>
      match findIfId id self.workspaces_ with
      | .error e => (self, some e)
      | .ok (some pos) =>
        let r := modifyAt (copyWorkspaceFields payload) pos self.workspaces_
        ({ self with workspaces_ := r.1 }, r.2)
      | .ok none =>
        match copyWorkspaceFields payload (objectValue [("id", intValue id)]) with
        | (_, some e) => (self, some e)
        | (workspace, none) =>
          let r := sortById (self.workspaces_ ++ [workspace])
          ({ self with workspaces_ := r.1 }, r.2)
  else if eventName = "workspace-removed" then
    match idOf payload with
    | .error e => (self, some e)
    | .ok id =>
      match findIfId id self.workspaces_ with
      | .error e => (self, some e)
      | .ok (some pos) => ({ self with workspaces_ := self.workspaces_.eraseIdx pos }, none)
      | .ok none => (self, none)
  else if eventName = "windows" then
    -- windows_.clear() comes first
    match payload.getMemberNames with
    | .error e => ({ self with windows_ := [] }, some e)
    | .ok names =>
      let r := pushWindows payload names []
      ({ self with windows_ := r.1 }, r.2)
  else if eventName = "window-changed" then
    match idOf payload with
    | .error e => (self, some e)
    | .ok id =>
      match findIfId id self.windows_ with
      | .error e => (self, some e)
      | .ok (some pos) =>
        let r := modifyAt (andThen (copyMember "id" "id" payload) (copyWindowFields payload))
          pos self.windows_
        ({ self with windows_ := r.1 }, r.2)
      | .ok none =>
        match andThen (copyMember "id" "id" payload) (copyWindowFields payload)
            (objectValue []) with
        | (_, some e) => (self, some e)
        | (window, none) => ({ self with windows_ := self.windows_ ++ [window] }, none)
  else if eventName = "window-closed" then
    match idOf payload with
    | .error e => (self, some e)
    | .ok id =>
      match findIfId id self.windows_ with
      | .error e => (self, some e)
      | .ok (some pos) => ({ self with windows_ := self.windows_.eraseIdx pos }, none)
      | .ok none => (self, none)
  else if eventName = "window-focused" then
    match payload.get "id" with
    | .error e => (self, some e)
    | .ok id =>
      let r :=
        if id.isNull then forEach clearFocused self.windows_
        else forEach (setFocusedById id) self.windows_
      ({ self with windows_ := r.1 }, r.2)
  else (self, none)

/-- The loop over callbacks_ at the end of parseIPC; every call sees the mirror
of the object it is made on. -/
def notify (self : IPC) (eventName : String) (ev : Value) :
    List (String × EventHandlerPtr) → List Call
  | [] => []
  | (name, handler) :: rest =>
    if name = eventName then
      { handler := handler, ev := ev, workspaces := self.workspaces_,
        windows := self.windows_ } :: notify self eventName ev rest
    else notify self eventName ev rest

/-- The body of parseIPC from the parsed document on. -/
def dispatch (valueToString : Rat → String) (self : IPC) (ev : Value) : Outcome :=
  match ev.isMember "event" with
  | .error e => { self := self, calls := [], thrown := some e }
  | .ok false => { self := self, calls := [], thrown := none }
  | .ok true =>
    match ev.isMember "data" with
    | .error e => { self := self, calls := [], thrown := some e }
    | .ok false => { self := self, calls := [], thrown := none }
    | .ok true =>
      match ev.get "event" with
      | .error e => { self := self, calls := [], thrown := some e }
      | .ok name =>
        match name.asString valueToString with
        | .error e => { self := self, calls := [], thrown := some e }
        | .ok eventName =>
          match ev.get "data" with
          | .error e => { self := self, calls := [], thrown := some e }
          | .ok payload =>
            match mutate eventName payload self with
            | (self1, some e) => { self := self1, calls := [], thrown := some e }
            | (self1, none) =>
              { self := self1, calls := notify self1 eventName ev self1.callbacks_,
                thrown := none }

/-- IPC::parseIPC.  parser_ is util::JsonParser::parse, which returns the
document or throws std::runtime_error. -/
def parseIPC (parser_ : String → Except Exc Value) (valueToString : Rat → String)
    (self : IPC) (line : String) : Outcome :=
  match parser_ line with
  | .error e => { self := self, calls := [], thrown := some e }
  | .ok ev => dispatch valueToString self ev

/-- IPC::registerForIPC. -/
def registerForIPC (self : IPC) (ev : String) (ev_handler : EventHandlerPtr) : IPC :=
  match ev_handler with
  | none => self
  | some h => { self with callbacks_ := self.callbacks_ ++ [(ev, some h)] }

/-- The erase loop of unregisterForIPC over callbacks_. -/
def eraseHandler (ev_handler : EventHandlerPtr) :
    List (String × EventHandlerPtr) → List (String × EventHandlerPtr)
  | [] => []
  | (eventname, handler) :: rest =>
    if handler = ev_handler then eraseHandler ev_handler rest
    else (eventname, handler) :: eraseHandler ev_handler rest

/-- IPC::unregisterForIPC. -/
def unregisterForIPC (self : IPC) (ev_handler : EventHandlerPtr) : IPC :=
  match ev_handler with
  | none => self
  | some h => { self with callbacks_ := eraseHandler (some h) self.callbacks_ }

/-- The object right after construction: nothing mirrored, nobody registered. -/
def emptyIPC : IPC := { workspaces_ := [], windows_ := [], callbacks_ := [] }

/-- States the object can be in: it starts with an empty mirror, and changes by
parseIPC on a parsed line and by the two registry routines. -/
inductive Reachable (valueToString : Rat → String) : IPC → Prop
  | init : Reachable valueToString emptyIPC
  | event (self : IPC) (ev : Value) :
      Reachable valueToString self → Reachable valueToString (dispatch valueToString self ev).self
  | register (self : IPC) (name : String) (h : EventHandlerPtr) :
      Reachable valueToString self → Reachable valueToString (registerForIPC self name h)
  | unregister (self : IPC) (h : EventHandlerPtr) :
      Reachable valueToString self → Reachable valueToString (unregisterForIPC self h)

/-! ## Notions used to state the properties, and the documents of the examples -/

/-- The comparison a.id <= b.id of two stored entries; false when an id cannot
be read. -/
def idLe (a b : Value) : Bool :=
  match idOf a, idOf b with
  | .ok i, .ok j => decide (i ≤ j)
  | _, _ => false

/-- The check that every entry's id is at most the id of the entry after it. -/
def isSortedById : List Value → Bool
  | [] => true
  | [_] => true
  | a :: b :: rest => idLe a b && isSortedById (b :: rest)

/-- Ascending by id. -/
def SortedById (vs : List Value) : Prop := isSortedById vs = true

instance (vs : List Value) : Decidable (SortedById vs) :=
  inferInstanceAs (Decidable (isSortedById vs = true))

/-- The id member of a stored entry. -/
def idMember : Value → Option Value
  | objectValue ms => find ms "id"
  | _ => none

/-- An entry as parseIPC stores it: an object with an id member that asInt
converts. -/
def hasId (v : Value) : Bool :=
  match idMember v with
  | some idv =>
    match idv.asInt with
    | .ok _ => true
    | .error _ => false
  | none => false

/-- Every element of a collection is an entry. -/
def WellFormed (vs : List Value) : Prop := ∀ v ∈ vs, hasId v = true

instance (vs : List Value) : Decidable (WellFormed vs) :=
  inferInstanceAs (Decidable (∀ v ∈ vs, hasId v = true))

mutual
/-- A document as the JSON parser builds it: every object lists its members
in ascending key order, no key twice. -/
def orderedValue : Value → Bool
  | objectValue ms => orderedMembers ms
  | arrayValue xs => orderedList xs
  | _ => true
/-- All elements of an array are ordered documents. -/
def orderedList : List Value → Bool
  | [] => true
  | x :: xs => orderedValue x && orderedList xs
/-- The members of an object come in strictly ascending key order and are
ordered documents. -/
def orderedMembers : List (String × Value) → Bool
  | [] => true
  | [(_, v)] => orderedValue v
  | (k, v) :: (k1, v1) :: rest =>
    keyLt k.toList k1.toList && orderedValue v && orderedMembers ((k1, v1) :: rest)
end

/-- The document ev is the event {"event": name, "data": payload}, possibly
with further members. -/
def IsEvent (ev : Value) (name : String) (payload : Value) : Prop :=
  ev.isMember "event" = .ok true ∧ ev.isMember "data" = .ok true ∧
  ev.get "event" = .ok (stringValue name) ∧ ev.get "data" = .ok payload

/-- The document {"event": name, "data": payload}. -/
def mkEvent (name : String) (payload : Value) : Value :=
  objectValue [("data", payload), ("event", stringValue name)]

/-- A workspaces event whose keys sort as "10", "9", "x":
the line {"event":"workspaces","data":{"10":{},"9":{},"x":{}}}. -/
def evWorkspacesBadKey : Value :=
  mkEvent "workspaces" (objectValue [("10", objectValue []), ("9", objectValue []),
    ("x", objectValue [])])

/-- A valueToString for the examples, none of which prints a double. -/
def printNoDouble : Rat → String := fun _ => ""

/-- The value v with member key set to val, for an object v. -/
def setMember (key : String) (val : Value) : Value → Value
  | objectValue ms => objectValue (insertMember key val ms)
  | v => v

/-- An object or null: what the const operator[] reads without throwing. -/
def isObjectOrNull : Value → Bool
  | objectValue _ => true
  | nullValue => true
  | _ => false

/-- The member the const operator[] yields on an object or null. -/
def member (v : Value) (key : String) : Value :=
  match v with
  | objectValue ms => (find ms key).getD nullValue
  | _ => nullValue

/-- The entry after the six workspace fields of src have been copied into it. -/
def withWorkspaceFields (src : Value) (v : Value) : Value :=
  setMember "nmaster" (member src "nmaster")
  (setMember "mwfact" (member src "mwfact")
  (setMember "fullscreen_window_idx" (member src "fullscreen-window-idx")
  (setMember "active_window_idx" (member src "active-window-idx")
  (setMember "windows" (member src "windows")
  (setMember "output" (member src "output") v)))))

/-- The entry after the ten window fields of src have been copied into it. -/
def withWindowFields (src : Value) (v : Value) : Value :=
  setMember "focused" (member src "focused")
  (setMember "activated" (member src "activated")
  (setMember "tiled" (member src "tiled")
  (setMember "maximized" (member src "maximized")
  (setMember "fullscreened" (member src "fullscreened")
  (setMember "location" (member src "location")
  (setMember "size" (member src "size")
  (setMember "workspace_id" (member src "workspace-id")
  (setMember "app_id" (member src "app-id")
  (setMember "title" (member src "title") v)))))))))

/-- The id of an entry as an integer (0 when it cannot be read). -/
def idVal (v : Value) : Int :=
  match idOf v with
  | .ok i => i
  | .error _ => 0

instance keyLeTotal : IsTotal (Int × Value) (fun a b => a.1 ≤ b.1) :=
  ⟨fun a b => le_total a.1 b.1⟩

instance keyLeTrans : IsTrans (Int × Value) (fun a b => a.1 ≤ b.1) :=
  ⟨fun _ _ _ hab hbc => le_trans hab hbc⟩

/-- The entry after the two statements of the active-workspace-changed loop. -/
def markActive (id : Int) (w : Value) : Value :=
  setMember "is_focused" (booleanValue (decide (idVal w = id)))
    (setMember "is_active" (booleanValue (decide (idVal w = id))) w)

/-- Both collections of the mirror hold entries only. -/
def Mirrored (self : IPC) : Prop :=
  WellFormed self.workspaces_ ∧ WellFormed self.windows_

/-- The ids of a collection, in storage order. -/
def ids (vs : List Value) : List Int := vs.map idVal

/-- The entry has is_active = true and is_focused = true. -/
def isActiveFocused (w : Value) : Bool :=
  match w.get "is_active", w.get "is_focused" with
  | .ok (booleanValue true), .ok (booleanValue true) => true
  | _, _ => false

/-- The entry has focused = true. -/
def isFocused (w : Value) : Bool :=
  match w.get "focused" with
  | .ok (booleanValue true) => true
  | _ => false

/-- A workspaces event with the keys "03" and "3":
the line {"event":"workspaces","data":{"03":{},"3":{}}}. -/
def evWorkspacesSameId : Value :=
  mkEvent "workspaces" (objectValue [("03", objectValue []), ("3", objectValue [])])

/-- The line {"event":"active-workspace-changed","data":{"id":3}}. -/
def evActivate3 : Value :=
  mkEvent "active-workspace-changed" (objectValue [("id", intValue 3)])

/-- The line {"event":"workspace-removed","data":{"id":3}}. -/
def evRemove3 : Value :=
  mkEvent "workspace-removed" (objectValue [("id", intValue 3)])

/-- The line {"event":"workspaces","data":{"3":{},"5":{}}}. -/
def evWorkspaces35 : Value :=
  mkEvent "workspaces" (objectValue [("3", objectValue []), ("5", objectValue [])])

/-- The line {"event":"windows","data":{"1":{"focused":true},"2":{"focused":true}}}. -/
def evWindowsTwoFocused : Value :=
  mkEvent "windows" (objectValue [("1", objectValue [("focused", booleanValue true)]),
    ("2", objectValue [("focused", booleanValue true)])])

/-- The line {"event":"windows","data":{"7":{"focused":true}}}. -/
def evWindows7Focused : Value :=
  mkEvent "windows" (objectValue [("7", objectValue [("focused", booleanValue true)])])

/-- The windows event of the scenario: window 7, title "term", app-id "foot",
workspace-id 3, size [800,600], location [0,0], tiled and activated, neither
fullscreened nor maximized nor focused. -/
def evWindows7 : Value :=
  mkEvent "windows" (objectValue [("7", objectValue [
    ("activated", booleanValue true), ("app-id", stringValue "foot"),
    ("focused", booleanValue false), ("fullscreened", booleanValue false),
    ("location", arrayValue [intValue 0, intValue 0]), ("maximized", booleanValue false),
    ("size", arrayValue [intValue 800, intValue 600]), ("tiled", booleanValue true),
    ("title", stringValue "term"), ("workspace-id", intValue 3)])])

/-- The line {"event":"window-focused","data":{"id":7}}. -/
def evFocus7 : Value :=
  mkEvent "window-focused" (objectValue [("id", intValue 7)])

/-- The line {"event":"window-focused","data":{"id":2147483648}}. -/
def evFocusBeyondInt : Value :=
  mkEvent "window-focused" (objectValue [("id", intValue 2147483648)])

/-- The line {"event":"windows","data":{"1":{"focused":true}}}. -/
def evWindows1Focused : Value :=
  mkEvent "windows" (objectValue [("1", objectValue [("focused", booleanValue true)])])

/-- The line {"event":"window-changed","data":{"focused":true,"id":2}}. -/
def evChange2Focused : Value :=
  mkEvent "window-changed" (objectValue [("focused", booleanValue true), ("id", intValue 2)])

/-- The line {"event":"window-focused","data":{"id":2}}. -/
def evFocus2 : Value :=
  mkEvent "window-focused" (objectValue [("id", intValue 2)])

/-- The focused member of a window payload is true. -/
def payloadFocused (payload : Value) : Bool :=
  match member payload "focused" with
  | booleanValue true => true
  | _ => false

/-- The number of members of a windows payload whose focused member is true. -/
def focusedMembers (payload : Value) : Nat :=
  match payload.getMemberNames with
  | .ok names => (names.filter (fun key => payloadFocused (member payload key))).length
  | .error _ => 0

/-- The int that std::stoi reads from a member name (0 when it throws). -/
def keyId (key : String) : Int :=
  match stoi key with
  | .ok i => i
  | .error _ => 0

/-- The workspace entry the workspaces loop builds from the member key of its
payload: the id read from the key, then the six fields of the member. -/
def workspaceOf (payload : Value) (key : String) : Value :=
  withWorkspaceFields (member payload key) (objectValue [("id", intValue (keyId key))])

/-- The workspaces event of the scenario: the line
{"event":"workspaces","data":{"3":{"output":"DP-1","windows":[],
"active-window-idx":null,"fullscreen-window-idx":null,"mwfact":0.5,"nmaster":1}}}. -/
def evWorkspaces3 : Value :=
  mkEvent "workspaces" (objectValue [("3", objectValue [
    ("active-window-idx", nullValue), ("fullscreen-window-idx", nullValue),
    ("mwfact", realValue (1 / 2)), ("nmaster", intValue 1),
    ("output", stringValue "DP-1"), ("windows", arrayValue [])])])

/-- The line {"event":"workspaces","data":{"2147483648":{}}}. -/
def evWorkspacesKeyBeyondInt : Value :=
  mkEvent "workspaces" (objectValue [("2147483648", objectValue [])])

/-- The line {"event":"workspace-changed","data":{"id":4,"output":"DP-2"}}. -/
def evChange4 : Value :=
  mkEvent "workspace-changed"
    (objectValue [("id", intValue 4), ("output", stringValue "DP-2")])

/-- The line {"event":"workspace-changed","data":{"id":2147483648}}. -/
def evChangeBeyondInt : Value :=
  mkEvent "workspace-changed" (objectValue [("id", intValue 2147483648)])

/-- The entry w carries the six workspace fields of the payload under their
mirror names: output, windows, active-window-idx as active_window_idx,
fullscreen-window-idx as fullscreen_window_idx, mwfact, nmaster. -/
def HasWorkspaceFields (w payload : Value) : Prop :=
  w.get "output" = .ok (member payload "output") ∧
  w.get "windows" = .ok (member payload "windows") ∧
  w.get "active_window_idx" = .ok (member payload "active-window-idx") ∧
  w.get "fullscreen_window_idx" = .ok (member payload "fullscreen-window-idx") ∧
  w.get "mwfact" = .ok (member payload "mwfact") ∧
  w.get "nmaster" = .ok (member payload "nmaster")

/-- A parser_ that reads the document ev from the line it is given. -/
def parsesTo (ev : Value) : String → Except Exc Value := fun _ => .ok ev

/-- The mirror with the workspaces 3 and 5 and two subscribers: handler 1
for workspaces, handler 2 for windows. -/
def ipcWithSubscribers : IPC :=
  registerForIPC (registerForIPC (dispatch printNoDouble emptyIPC evWorkspaces35).self
    "workspaces" (some 1)) "windows" (some 2)

/-- The line {"event":"windows","data":{"10":{},"9":{},"x":{}}}. -/
def evWindowsBadKey : Value :=
  mkEvent "windows" (objectValue [("10", objectValue []), ("9", objectValue []),
    ("x", objectValue [])])

/-- The member names of a workspaces or windows payload convert to pairwise
different ints (a name that std::stoi rejects counts as 0). -/
def DistinctKeys (payload : Value) : Prop :=
  ∀ names, payload.getMemberNames = .ok names → (names.map keyId).Nodup

/-- The document does not carry two keys with one int: when its event name is
workspaces or windows, the member names of its data convert to pairwise
different ints. -/
def KeysDistinct (valueToString : Rat → String) (ev : Value) : Prop :=
  ∀ name payload, (ev.get "event" >>= asString valueToString) = .ok name →
    ev.get "data" = .ok payload → (name = "workspaces" ∨ name = "windows") →
    DistinctKeys payload

/-- States the object can be in when no workspaces or windows event carries two
keys with one int: it starts with an empty mirror, and changes by parseIPC on
such a document and by the two registry routines. -/
inductive ReachableDistinct (valueToString : Rat → String) : IPC → Prop
  | init : ReachableDistinct valueToString emptyIPC
  | event (self : IPC) (ev : Value) :
      ReachableDistinct valueToString self → KeysDistinct valueToString ev →
      ReachableDistinct valueToString (dispatch valueToString self ev).self
  | register (self : IPC) (name : String) (h : EventHandlerPtr) :
      ReachableDistinct valueToString self →
      ReachableDistinct valueToString (registerForIPC self name h)
  | unregister (self : IPC) (h : EventHandlerPtr) :
      ReachableDistinct valueToString self →
      ReachableDistinct valueToString (unregisterForIPC self h)

/-- The line {"event":"windows","data":{"07":{},"7":{}}}. -/
def evWindowsSameId : Value :=
  mkEvent "windows" (objectValue [("07", objectValue []), ("7", objectValue [])])

/-! ## Reading the mirror -/

theorem find_insertMember_self (key : String) (val : Value) (ms : List (String × Value)) :
    find (insertMember key val ms) key = some val := by
  induction ms with
  | nil => simp [insertMember, find]
  | cons m rest ih =>
    obtain ⟨k, v⟩ := m
    unfold insertMember
    split
    · simp [find]
    · split
      · simp [find]
      · simp_all [find]

theorem find_insertMember_ne (key key1 : String) (val : Value) (ms : List (String × Value))
    (h : key ≠ key1) : find (insertMember key val ms) key1 = find ms key1 := by
  induction ms with
  | nil => simp [insertMember, find, h]
  | cons m rest ih =>
    obtain ⟨k, v⟩ := m
    unfold insertMember
    split
    · next h1 => subst h1; simp [find, h]
    · split
      · simp [find, h]
      · simp [find, ih]

/-! ## Entries and the statements that write them -/

theorem hasId_iff (v : Value) :
    hasId v = true ↔ ∃ ms idv i, v = objectValue ms ∧ find ms "id" = some idv ∧
      idv.asInt = .ok i := by
  constructor
  · intro h
    cases v with
    | objectValue ms =>
      cases hf : find ms "id" with
      | none => simp [hasId, idMember, hf] at h
      | some idv =>
        cases ha : idv.asInt with
        | error e => simp [hasId, idMember, hf, ha] at h
        | ok i => exact ⟨ms, idv, i, rfl, hf, ha⟩
    | _ => simp [hasId, idMember] at h
  · rintro ⟨ms, idv, i, rfl, hf, ha⟩
    simp [hasId, idMember, hf, ha]

theorem idOf_object (ms : List (String × Value)) (idv : Value)
    (hf : find ms "id" = some idv) : idOf (objectValue ms) = idv.asInt := by
  simp [idOf, Value.get, hf]

theorem hasId_idOf (v : Value) (h : hasId v = true) : ∃ i, idOf v = .ok i := by
  obtain ⟨ms, idv, i, rfl, hf, ha⟩ := (hasId_iff v).1 h
  exact ⟨i, by rw [idOf_object ms idv hf, ha]⟩

theorem idMember_setMember (key : String) (val v : Value) (hk : key ≠ "id") :
    idMember (setMember key val v) = idMember v := by
  cases v <;> simp [setMember, idMember, find_insertMember_ne _ _ _ _ hk]

theorem hasId_setMember (key : String) (val v : Value) (hk : key ≠ "id") :
    hasId (setMember key val v) = hasId v := by
  simp [hasId, idMember_setMember key val v hk]

theorem idOf_setMember (key : String) (val v : Value) (hk : key ≠ "id") :
    idOf (setMember key val v) = idOf v := by
  cases v <;> simp [setMember, idOf, Value.get, find_insertMember_ne _ _ _ _ hk]

theorem get_setMember_self (key : String) (val : Value) (ms : List (String × Value)) :
    (setMember key val (objectValue ms)).get key = .ok val := by
  simp [setMember, Value.get, find_insertMember_self]

theorem get_setMember_ne (key key1 : String) (val v : Value) (hk : key ≠ key1) :
    (setMember key val v).get key1 = v.get key1 := by
  cases v <;> simp [setMember, Value.get, find_insertMember_ne _ _ _ _ hk]

theorem hasId_isObject (v : Value) (h : hasId v = true) : ∃ ms, v = objectValue ms := by
  obtain ⟨ms, _, _, rfl, _, _⟩ := (hasId_iff v).1 h
  exact ⟨ms, rfl⟩

theorem copyMember_idMember (key srcKey : String) (src target : Value) (hk : key ≠ "id") :
    idMember (copyMember key srcKey src target).1 = idMember target := by
  unfold copyMember
  cases src.get srcKey with
  | error e => rfl
  | ok x =>
    cases target <;> simp [assign, idMember, find, find_insertMember_ne _ _ _ _ hk]
    exact fun h => absurd h hk

theorem andThen_idMember (f g : Value → Value × Option Exc)
    (hf : ∀ v, idMember (f v).1 = idMember v) (hg : ∀ v, idMember (g v).1 = idMember v)
    (v : Value) : idMember (andThen f g v).1 = idMember v := by
  unfold andThen
  have h1 := hf v
  cases hfv : f v with
  | mk v1 e =>
    rw [hfv] at h1
    cases e with
    | none => simpa [h1] using hg v1
    | some e => simpa using h1

theorem copyWorkspaceFields_idMember (src v : Value) :
    idMember (copyWorkspaceFields src v).1 = idMember v := by
  unfold copyWorkspaceFields
  repeat (first
    | apply andThen_idMember
    | intro v
    | exact copyMember_idMember _ _ _ _ (by decide))

theorem copyWindowFields_idMember (src v : Value) :
    idMember (copyWindowFields src v).1 = idMember v := by
  unfold copyWindowFields
  repeat (first
    | apply andThen_idMember
    | intro v
    | exact copyMember_idMember _ _ _ _ (by decide))

theorem hasId_of_idMember_eq (v w : Value) (h : idMember v = idMember w) :
    hasId v = hasId w := by
  simp [hasId, h]

theorem get_of_isObjectOrNull (v : Value) (key : String) (h : isObjectOrNull v = true) :
    v.get key = .ok (member v key) := by
  cases v <;> simp_all [isObjectOrNull, Value.get, member]

theorem isObjectOrNull_of_get (v : Value) (key : String) (x : Value) (h : v.get key = .ok x) :
    isObjectOrNull v = true := by
  cases v <;> simp_all [isObjectOrNull, Value.get]

theorem copyMember_object (key srcKey : String) (src : Value) (ms : List (String × Value))
    (h : isObjectOrNull src = true) :
    copyMember key srcKey src (objectValue ms) =
      (setMember key (member src srcKey) (objectValue ms), none) := by
  simp [copyMember, get_of_isObjectOrNull src srcKey h, assign, setMember]

theorem setMember_object (key : String) (val : Value) (ms : List (String × Value)) :
    ∃ ms1, setMember key val (objectValue ms) = objectValue ms1 := ⟨_, rfl⟩

theorem copyWorkspaceFields_object (src : Value) (ms : List (String × Value))
    (h : isObjectOrNull src = true) :
    copyWorkspaceFields src (objectValue ms) = (withWorkspaceFields src (objectValue ms), none) := by
  simp [copyWorkspaceFields, withWorkspaceFields, andThen, copyMember_object _ _ _ _ h, setMember]

theorem copyWindowFields_object (src : Value) (ms : List (String × Value))
    (h : isObjectOrNull src = true) :
    copyWindowFields src (objectValue ms) = (withWindowFields src (objectValue ms), none) := by
  simp [copyWindowFields, withWindowFields, andThen, copyMember_object _ _ _ _ h, setMember]

theorem copyWorkspaceFields_error (src v : Value) (h : isObjectOrNull src = false) :
    copyWorkspaceFields src v = (v, some .logic_error) := by
  cases src <;> simp_all [isObjectOrNull, copyWorkspaceFields, andThen, copyMember, Value.get]

theorem copyWindowFields_error (src v : Value) (h : isObjectOrNull src = false) :
    copyWindowFields src v = (v, some .logic_error) := by
  cases src <;> simp_all [isObjectOrNull, copyWindowFields, andThen, copyMember, Value.get]

/-! ## Loops, searches and the sort -/

theorem forEach_map (body : Value → Value × Option Exc) (g : Value → Value) (ws : List Value)
    (h : ∀ w ∈ ws, body w = (g w, none)) : forEach body ws = (ws.map g, none) := by
  induction ws with
  | nil => rfl
  | cons w rest ih =>
    have hw := h w (List.mem_cons_self _ _)
    have hr := ih (fun x hx => h x (List.mem_cons_of_mem _ hx))
    simp [forEach, hw, hr]

theorem forEach_throw_head (body : Value → Value × Option Exc) (w : Value) (rest : List Value)
    (e : Exc) (h : body w = (w, some e)) : forEach body (w :: rest) = (w :: rest, some e) := by
  simp [forEach, h]

theorem forEach_wellFormed (body : Value → Value × Option Exc) (ws : List Value)
    (hb : ∀ w, hasId w = true → hasId (body w).1 = true) (h : WellFormed ws) :
    WellFormed (forEach body ws).1 := by
  induction ws with
  | nil => simpa [forEach] using h
  | cons w rest ih =>
    have hw : hasId w = true := h w (List.mem_cons_self _ _)
    have hr : WellFormed rest := fun x hx => h x (List.mem_cons_of_mem _ hx)
    have h1 := hb w hw
    unfold forEach
    cases hbw : body w with
    | mk w1 e =>
      rw [hbw] at h1
      cases e with
      | some e =>
        intro x hx
        simp only [List.mem_cons] at hx
        rcases hx with rfl | hx
        · exact h1
        · exact hr x hx
      | none =>
        intro x hx
        simp only [List.mem_cons] at hx
        rcases hx with rfl | hx
        · exact h1
        · exact ih hr x hx

theorem modifyAt_append (body : Value → Value × Option Exc) (pre : List Value) (w : Value)
    (post : List Value) :
    modifyAt body pre.length (pre ++ w :: post) = (pre ++ (body w).1 :: post, (body w).2) := by
  induction pre with
  | nil => rfl
  | cons p pre ih => simp [modifyAt, ih]

theorem eraseIdx_append (pre : List Value) (w : Value) (post : List Value) :
    (pre ++ w :: post).eraseIdx pre.length = pre ++ post := by
  induction pre with
  | nil => rfl
  | cons p pre ih => simp [List.eraseIdx, ih]

theorem findIfId_none (id : Int) (ws : List Value) (hwf : WellFormed ws)
    (h : ∀ w ∈ ws, idOf w ≠ .ok id) : findIfId id ws = .ok none := by
  induction ws with
  | nil => rfl
  | cons w rest ih =>
    obtain ⟨i, hi⟩ := hasId_idOf w (hwf w (List.mem_cons_self _ _))
    have hne : i ≠ id := fun hc => h w (List.mem_cons_self _ _) (by rw [hi, hc])
    have hr := ih (fun x hx => hwf x (List.mem_cons_of_mem _ hx))
      (fun x hx => h x (List.mem_cons_of_mem _ hx))
    simp [findIfId, hi, hne, hr]

theorem findIfId_some (id : Int) (pre : List Value) (w : Value) (post : List Value)
    (hwf : WellFormed pre) (hpre : ∀ p ∈ pre, idOf p ≠ .ok id) (hw : idOf w = .ok id) :
    findIfId id (pre ++ w :: post) = .ok (some pre.length) := by
  induction pre with
  | nil => simp [findIfId, hw]
  | cons p pre ih =>
    obtain ⟨i, hi⟩ := hasId_idOf p (hwf p (List.mem_cons_self _ _))
    have hne : i ≠ id := fun hc => hpre p (List.mem_cons_self _ _) (by rw [hi, hc])
    have hr := ih (fun x hx => hwf x (List.mem_cons_of_mem _ hx))
      (fun x hx => hpre x (List.mem_cons_of_mem _ hx))
    simp [findIfId, hi, hne, hr]

/-- Either no element has the id, or the collection splits at the first that has. -/
theorem split_at_first_id (id : Int) (ws : List Value) :
    (∀ w ∈ ws, idOf w ≠ .ok id) ∨
    ∃ pre w post, ws = pre ++ w :: post ∧ (∀ p ∈ pre, idOf p ≠ .ok id) ∧ idOf w = .ok id := by
  induction ws with
  | nil => left; simp
  | cons w rest ih =>
    by_cases hw : idOf w = .ok id
    · right; exact ⟨[], w, rest, rfl, by simp, hw⟩
    · rcases ih with h | ⟨pre, x, post, rfl, hpre, hx⟩
      · left
        intro y hy
        simp only [List.mem_cons] at hy
        rcases hy with rfl | hy
        · exact hw
        · exact h y hy
      · right
        refine ⟨w :: pre, x, post, rfl, ?_, hx⟩
        intro y hy
        simp only [List.mem_cons] at hy
        rcases hy with rfl | hy
        · exact hw
        · exact hpre y hy

theorem idOf_eq_idVal (v : Value) (h : hasId v = true) : idOf v = .ok (idVal v) := by
  obtain ⟨i, hi⟩ := hasId_idOf v h
  simp [idVal, hi]

theorem sortKeys_wellFormed (ws : List Value) (h : WellFormed ws) :
    sortKeys ws = .ok (ws.map (fun w => (idVal w, w))) := by
  induction ws with
  | nil => rfl
  | cons w rest ih =>
    have hw := idOf_eq_idVal w (h w (List.mem_cons_self _ _))
    have hr := ih (fun x hx => h x (List.mem_cons_of_mem _ hx))
    simp [sortKeys, hw, hr]

theorem sortKeys_snd (ws : List Value) (kvs : List (Int × Value))
    (h : sortKeys ws = .ok kvs) : kvs.map Prod.snd = ws := by
  induction ws generalizing kvs with
  | nil => simp [sortKeys] at h; subst h; rfl
  | cons w rest ih =>
    unfold sortKeys at h
    cases hi : idOf w with
    | error e => simp [hi] at h
    | ok i =>
      cases hr : sortKeys rest with
      | error e => simp [hi, hr] at h
      | ok r =>
        simp [hi, hr] at h
        subst h
        simp [ih r hr]

theorem sortById_perm (ws : List Value) : List.Perm (sortById ws).1 ws := by
  unfold sortById
  split
  · exact List.Perm.refl _
  · cases h : sortKeys ws with
    | error e => exact List.Perm.refl _
    | ok kvs =>
      simp only
      have h1 := (List.perm_insertionSort (fun a b : Int × Value => a.1 ≤ b.1) kvs).map Prod.snd
      rw [sortKeys_snd ws kvs h] at h1
      exact h1

theorem wellFormed_perm (xs ys : List Value) (hp : List.Perm xs ys) (h : WellFormed ys) :
    WellFormed xs := fun v hv => h v (hp.subset hv)

theorem sortById_wellFormed (ws : List Value) (h : WellFormed ws) :
    sortById ws = (((ws.map (fun w => (idVal w, w))).insertionSort
      (fun a b => a.1 ≤ b.1)).map Prod.snd, none) := by
  unfold sortById
  split
  · next hlen =>
    match ws, hlen with
    | [], _ => rfl
    | [w], _ => rfl
    | _ :: _ :: _, hlen => simp only [List.length_cons] at hlen; omega
  · simp [sortKeys_wellFormed ws h]

theorem isSortedById_of_sorted (kvs : List (Int × Value))
    (hk : ∀ x ∈ kvs, idOf x.2 = .ok x.1)
    (hs : List.Sorted (fun a b : Int × Value => a.1 ≤ b.1) kvs) :
    isSortedById (kvs.map Prod.snd) = true := by
  induction kvs with
  | nil => rfl
  | cons a rest ih =>
    cases rest with
    | nil => rfl
    | cons b rest =>
      have ha := hk a (List.mem_cons_self _ _)
      have hb := hk b (List.mem_cons_of_mem _ (List.mem_cons_self _ _))
      have hab : a.1 ≤ b.1 := List.rel_of_sorted_cons hs b (List.mem_cons_self _ _)
      have hr := ih (fun x hx => hk x (List.mem_cons_of_mem _ hx)) hs.of_cons
      simp only [List.map_cons] at hr ⊢
      simp [isSortedById, idLe, ha, hb, hab, hr]

theorem sortById_sorted (ws : List Value) (h : WellFormed ws) :
    SortedById (sortById ws).1 := by
  rw [sortById_wellFormed ws h]
  apply isSortedById_of_sorted
  · intro x hx
    have hx1 : x ∈ ws.map (fun w => (idVal w, w)) :=
      (List.perm_insertionSort _ _).subset hx
    obtain ⟨w, hw, rfl⟩ := List.mem_map.1 hx1
    exact idOf_eq_idVal w (h w hw)
  · exact List.sorted_insertionSort _ _

/-! ## The values an id can take -/

theorem checkInt_range (m n : Int) (h : checkInt m = .ok n) : minInt ≤ n ∧ n ≤ maxInt := by
  unfold checkInt at h
  split at h
  · next hr => simp only [Except.ok.injEq] at h; subst h; exact hr
  · simp at h

theorem convertDigits_range (neg : Bool) (ds : List Char) (n : Int)
    (h : convertDigits neg ds = .ok n) : minInt ≤ n ∧ n ≤ maxInt := by
  unfold convertDigits at h
  by_cases hd : ds = []
  · simp [hd] at h
  · rw [if_neg hd] at h
    exact checkInt_range _ n h

theorem stoi_range (s : String) (n : Int) (h : stoi s = .ok n) : minInt ≤ n ∧ n ≤ maxInt :=
  convertDigits_range _ _ n h

theorem tdiv_range (r : Rat) (h : (minInt : Rat) ≤ r ∧ r ≤ (maxInt : Rat)) :
    minInt ≤ Int.tdiv r.num (r.den : Int) ∧ Int.tdiv r.num (r.den : Int) ≤ maxInt := by
  have hd : (0 : Rat) < (r.den : Rat) := by exact_mod_cast r.den_pos
  have hdi : (0 : Int) < (r.den : Int) := by exact_mod_cast r.den_pos
  have hr : r = (r.num : Rat) / (r.den : Rat) := (Rat.num_div_den r).symm
  have h1 : (minInt : Rat) * (r.den : Rat) ≤ (r.num : Rat) := by
    have := h.1
    rw [hr] at this
    exact (le_div_iff₀ hd).1 this
  have h2 : (r.num : Rat) ≤ (maxInt : Rat) * (r.den : Rat) := by
    have := h.2
    rw [hr] at this
    exact (div_le_iff₀ hd).1 this
  have h1i : minInt * (r.den : Int) ≤ r.num := by exact_mod_cast h1
  have h2i : r.num ≤ maxInt * (r.den : Int) := by exact_mod_cast h2
  by_cases hn : 0 ≤ r.num
  · rw [Int.tdiv_eq_ediv hn (le_of_lt hdi)]
    constructor
    · have : 0 ≤ r.num / (r.den : Int) := Int.ediv_nonneg hn (le_of_lt hdi)
      unfold minInt; omega
    · exact Int.ediv_le_of_le_mul hdi h2i
  · have hneg : 0 ≤ -r.num := by omega
    have e : Int.tdiv r.num (r.den : Int) = -((-r.num) / (r.den : Int)) := by
      rw [← Int.tdiv_eq_ediv hneg (le_of_lt hdi), Int.neg_tdiv, neg_neg]
    rw [e]
    constructor
    · have : (-r.num) / (r.den : Int) ≤ -minInt :=
        Int.ediv_le_of_le_mul hdi (by rw [neg_mul]; omega)
      omega
    · have : 0 ≤ (-r.num) / (r.den : Int) := Int.ediv_nonneg hneg (le_of_lt hdi)
      unfold maxInt; omega

theorem asInt_range (v : Value) (n : Int) (h : v.asInt = .ok n) : minInt ≤ n ∧ n ≤ maxInt := by
  cases v with
  | nullValue => simp [asInt] at h; subst h; decide
  | intValue i =>
    simp only [asInt] at h
    split at h
    · next hr => simp at h; subst h; exact hr
    · simp at h
  | uintValue u =>
    simp only [asInt] at h
    split at h
    · next hr =>
      simp at h; subst h
      refine ⟨?_, hr⟩
      have : (0 : Int) ≤ (u : Int) := Int.natCast_nonneg u
      unfold minInt; omega
    · simp at h
  | realValue r =>
    simp only [asInt] at h
    split at h
    · next hr =>
      simp only [Except.ok.injEq] at h; subst h
      exact tdiv_range r hr
    · simp at h
  | booleanValue b =>
    simp [asInt] at h; subst h
    cases b <;> decide
  | stringValue s => simp [asInt] at h
  | arrayValue xs => simp [asInt] at h
  | objectValue ms => simp [asInt] at h

theorem asInt_intValue (n : Int) (h : minInt ≤ n ∧ n ≤ maxInt) : (intValue n).asInt = .ok n := by
  simp [asInt, h]

theorem idOf_range (v : Value) (n : Int) (h : idOf v = .ok n) : minInt ≤ n ∧ n ≤ maxInt := by
  unfold idOf at h
  cases hg : v.get "id" with
  | error e => simp [hg] at h
  | ok x => rw [hg] at h; exact asInt_range x n h

theorem idOf_payload (payload : Value) (n : Int) (h : idOf payload = .ok n) :
    isObjectOrNull payload = true ∧ (member payload "id").asInt = .ok n := by
  unfold idOf at h
  cases hg : payload.get "id" with
  | error e => simp [hg] at h
  | ok x =>
    have ho := isObjectOrNull_of_get payload "id" x hg
    refine ⟨ho, ?_⟩
    simpa [idOf, get_of_isObjectOrNull payload "id" ho] using h

/-! ## The statements of the loops, on stored entries -/

theorem idVal_setMember (key : String) (val v : Value) (hk : key ≠ "id") :
    idVal (setMember key val v) = idVal v := by
  simp [idVal, idOf_setMember key val v hk]

theorem setFlagById_entry (flag : String) (id : Int) (w : Value) (hw : hasId w = true) :
    setFlagById flag id w = (setMember flag (booleanValue (decide (idVal w = id))) w, none) := by
  obtain ⟨ms, idv, i, rfl, hf, ha⟩ := (hasId_iff w).1 hw
  have hv : idVal (objectValue ms) = i := by simp [idVal, idOf_object ms idv hf, ha]
  simp [setFlagById, resolveReference, hf, ha, assign, setMember, hv]

theorem setFlags_entry (id : Int) (w : Value) (hw : hasId w = true) :
    andThen (setFlagById "is_active" id) (setFlagById "is_focused" id) w =
      (markActive id w, none) := by
  have h1 := setFlagById_entry "is_active" id w hw
  have hw1 : hasId (setMember "is_active" (booleanValue (decide (idVal w = id))) w) = true := by
    rw [hasId_setMember _ _ _ (by decide)]; exact hw
  have h2 := setFlagById_entry "is_focused" id _ hw1
  rw [idVal_setMember _ _ _ (by decide)] at h2
  simp [andThen, h1, h2, markActive]

theorem hasId_markActive (id : Int) (w : Value) : hasId (markActive id w) = hasId w := by
  unfold markActive
  rw [hasId_setMember _ _ _ (by decide), hasId_setMember _ _ _ (by decide)]

theorem idOf_markActive (id : Int) (w : Value) : idOf (markActive id w) = idOf w := by
  unfold markActive
  rw [idOf_setMember _ _ _ (by decide), idOf_setMember _ _ _ (by decide)]

theorem clearFocused_entry (w : Value) (hw : hasId w = true) :
    clearFocused w = (setMember "focused" (booleanValue false) w, none) := by
  obtain ⟨ms, rfl⟩ := hasId_isObject w hw
  simp [clearFocused, assign, setMember]

theorem setFocusedById_entry (idv : Value) (k : Int) (w : Value) (hw : hasId w = true)
    (hk : idv.asInt = .ok k) :
    setFocusedById idv w =
      (setMember "focused" (booleanValue (decide (idVal w = k))) w, none) := by
  obtain ⟨ms, x, i, rfl, hf, ha⟩ := (hasId_iff w).1 hw
  have hv : idVal (objectValue ms) = i := by simp [idVal, idOf_object ms x hf, ha]
  simp [setFocusedById, resolveReference, hf, ha, hk, assign, setMember, hv]

theorem setFocusedById_throw (idv : Value) (e : Exc) (w : Value) (hw : hasId w = true)
    (hk : idv.asInt = .error e) : setFocusedById idv w = (w, some e) := by
  obtain ⟨ms, x, i, rfl, hf, ha⟩ := (hasId_iff w).1 hw
  simp [setFocusedById, resolveReference, hf, ha, hk]

theorem hasId_withWorkspaceFields (src v : Value) :
    hasId (withWorkspaceFields src v) = hasId v := by
  unfold withWorkspaceFields
  simp only [hasId_setMember _ _ _ (show ("nmaster" : String) ≠ "id" by decide),
    hasId_setMember _ _ _ (show ("mwfact" : String) ≠ "id" by decide),
    hasId_setMember _ _ _ (show ("fullscreen_window_idx" : String) ≠ "id" by decide),
    hasId_setMember _ _ _ (show ("active_window_idx" : String) ≠ "id" by decide),
    hasId_setMember _ _ _ (show ("windows" : String) ≠ "id" by decide),
    hasId_setMember _ _ _ (show ("output" : String) ≠ "id" by decide)]

theorem idOf_withWorkspaceFields (src v : Value) :
    idOf (withWorkspaceFields src v) = idOf v := by
  unfold withWorkspaceFields
  simp only [idOf_setMember _ _ _ (show ("nmaster" : String) ≠ "id" by decide),
    idOf_setMember _ _ _ (show ("mwfact" : String) ≠ "id" by decide),
    idOf_setMember _ _ _ (show ("fullscreen_window_idx" : String) ≠ "id" by decide),
    idOf_setMember _ _ _ (show ("active_window_idx" : String) ≠ "id" by decide),
    idOf_setMember _ _ _ (show ("windows" : String) ≠ "id" by decide),
    idOf_setMember _ _ _ (show ("output" : String) ≠ "id" by decide)]

theorem hasId_newEntry (id : Int) (h : minInt ≤ id ∧ id ≤ maxInt) :
    hasId (objectValue [("id", intValue id)]) = true := by
  simp [hasId, idMember, find, asInt, h]

theorem idOf_newEntry (id : Int) (h : minInt ≤ id ∧ id ≤ maxInt) :
    idOf (objectValue [("id", intValue id)]) = .ok id := by
  simp [idOf, Value.get, find, asInt, h]

theorem hasId_copyWorkspaceFields (src v : Value) (h : hasId v = true) :
    hasId (copyWorkspaceFields src v).1 = true := by
  rw [hasId_of_idMember_eq _ v (copyWorkspaceFields_idMember src v)]; exact h

theorem hasId_copyWindowFields (src v : Value) (h : hasId v = true) :
    hasId (copyWindowFields src v).1 = true := by
  rw [hasId_of_idMember_eq _ v (copyWindowFields_idMember src v)]; exact h

/-! ## Every stored element is an entry -/

theorem wellFormed_append (xs ys : List Value) (hx : WellFormed xs) (hy : WellFormed ys) :
    WellFormed (xs ++ ys) := by
  intro v hv
  rcases List.mem_append.1 hv with h | h
  · exact hx v h
  · exact hy v h

theorem wellFormed_singleton (v : Value) (h : hasId v = true) : WellFormed [v] := by
  intro x hx
  simp only [List.mem_singleton] at hx
  subst hx; exact h

theorem pushWorkspaces_wellFormed (payload : Value) (names : List String) (acc : List Value)
    (h : WellFormed acc) : WellFormed (pushWorkspaces payload names acc).1 := by
  induction names generalizing acc with
  | nil => simpa [pushWorkspaces] using h
  | cons member rest ih =>
    unfold pushWorkspaces
    cases hg : payload.get member with
    | error e => simpa using h
    | ok ws =>
      cases hs : stoi member with
      | error e => simpa using h
      | ok id =>
        have hnew := hasId_copyWorkspaceFields ws _ (hasId_newEntry id (stoi_range _ _ hs))
        cases hc : copyWorkspaceFields ws (objectValue [("id", intValue id)]) with
        | mk w e =>
          rw [hc] at hnew
          cases e with
          | some e => simpa [hc] using h
          | none =>
            simp only [hc]
            exact ih _ (wellFormed_append _ _ h (wellFormed_singleton w hnew))

theorem pushWindows_wellFormed (payload : Value) (names : List String) (acc : List Value)
    (h : WellFormed acc) : WellFormed (pushWindows payload names acc).1 := by
  induction names generalizing acc with
  | nil => simpa [pushWindows] using h
  | cons member rest ih =>
    unfold pushWindows
    cases hg : payload.get member with
    | error e => simpa using h
    | ok ws =>
      cases hs : stoi member with
      | error e => simpa using h
      | ok id =>
        have hnew := hasId_copyWindowFields ws _ (hasId_newEntry id (stoi_range _ _ hs))
        cases hc : copyWindowFields ws (objectValue [("id", intValue id)]) with
        | mk w e =>
          rw [hc] at hnew
          cases e with
          | some e => simpa [hc] using h
          | none =>
            simp only [hc]
            exact ih _ (wellFormed_append _ _ h (wellFormed_singleton w hnew))

theorem wellFormed_split (pre : List Value) (w : Value) (post : List Value)
    (h : WellFormed (pre ++ w :: post)) :
    WellFormed pre ∧ hasId w = true ∧ WellFormed post := by
  refine ⟨fun v hv => h v (by simp [hv]), h w (by simp), fun v hv => h v (by simp [hv])⟩

theorem wellFormed_join (pre : List Value) (w : Value) (post : List Value)
    (hpre : WellFormed pre) (hw : hasId w = true) (hpost : WellFormed post) :
    WellFormed (pre ++ w :: post) := by
  intro v hv
  simp only [List.mem_append, List.mem_cons] at hv
  rcases hv with h | rfl | h
  · exact hpre v h
  · exact hw
  · exact hpost v h

theorem hasId_windowUpdate (payload : Value) (id : Int) (w : Value)
    (hid : idOf payload = .ok id) (hw : ∃ ms, w = objectValue ms) :
    hasId (andThen (copyMember "id" "id" payload) (copyWindowFields payload) w).1 = true := by
  obtain ⟨ms, rfl⟩ := hw
  obtain ⟨ho, ha⟩ := idOf_payload payload id hid
  have h1 := copyMember_object "id" "id" payload ms ho
  have h2 : hasId (setMember "id" (member payload "id") (objectValue ms)) = true := by
    simp [hasId, idMember, setMember, find_insertMember_self, ha]
  simp only [andThen, h1]
  exact hasId_copyWindowFields payload _ h2

theorem mutate_activeWorkspaceChanged (payload : Value) (self : IPC) (id : Int)
    (hwf : WellFormed self.workspaces_) (hid : idOf payload = .ok id) :
    mutate "active-workspace-changed" payload self =
      ({ self with workspaces_ := self.workspaces_.map (markActive id) }, none) := by
  have h := forEach_map (andThen (setFlagById "is_active" id) (setFlagById "is_focused" id))
    (markActive id) self.workspaces_ (fun w hw => setFlags_entry id w (hwf w hw))
  simp [mutate, hid, h]

theorem mutate_workspaceRemoved_absent (payload : Value) (self : IPC) (id : Int)
    (hwf : WellFormed self.workspaces_) (hid : idOf payload = .ok id)
    (habs : ∀ w ∈ self.workspaces_, idOf w ≠ .ok id) :
    mutate "workspace-removed" payload self = (self, none) := by
  simp [mutate, hid, findIfId_none id _ hwf habs]

theorem mutate_workspaceRemoved_present (payload : Value) (self : IPC) (id : Int)
    (pre : List Value) (w : Value) (post : List Value)
    (hsplit : self.workspaces_ = pre ++ w :: post) (hwf : WellFormed pre)
    (hpre : ∀ p ∈ pre, idOf p ≠ .ok id) (hw : idOf w = .ok id)
    (hid : idOf payload = .ok id) :
    mutate "workspace-removed" payload self =
      ({ self with workspaces_ := pre ++ post }, none) := by
  simp [mutate, hid, hsplit, findIfId_some id pre w post hwf hpre hw, eraseIdx_append]

theorem mutate_workspaceChanged_present (payload : Value) (self : IPC) (id : Int)
    (pre : List Value) (w : Value) (post : List Value)
    (hsplit : self.workspaces_ = pre ++ w :: post) (hwf : WellFormed pre)
    (hpre : ∀ p ∈ pre, idOf p ≠ .ok id) (hw : idOf w = .ok id) (hwe : hasId w = true)
    (hid : idOf payload = .ok id) :
    mutate "workspace-changed" payload self =
      ({ self with workspaces_ := pre ++ withWorkspaceFields payload w :: post }, none) := by
  obtain ⟨ms, rfl⟩ := hasId_isObject w hwe
  have hc := copyWorkspaceFields_object payload ms (idOf_payload payload id hid).1
  simp [mutate, hid, hsplit, findIfId_some id pre _ post hwf hpre hw, modifyAt_append, hc]

theorem mutate_workspaceChanged_absent (payload : Value) (self : IPC) (id : Int)
    (hwf : WellFormed self.workspaces_) (hid : idOf payload = .ok id)
    (habs : ∀ w ∈ self.workspaces_, idOf w ≠ .ok id) :
    mutate "workspace-changed" payload self =
      ({ self with workspaces_ := (sortById (self.workspaces_ ++
          [withWorkspaceFields payload (objectValue [("id", intValue id)])])).1 }, none) := by
  have hc := copyWorkspaceFields_object payload [("id", intValue id)]
    (idOf_payload payload id hid).1
  have hnew : hasId (withWorkspaceFields payload (objectValue [("id", intValue id)])) = true := by
    rw [hasId_withWorkspaceFields]; exact hasId_newEntry id (idOf_range payload id hid)
  have hs := sortById_wellFormed _ (wellFormed_append _ _ hwf (wellFormed_singleton _ hnew))
  simp [mutate, hid, findIfId_none id _ hwf habs, hc, hs]

theorem mutate_windowFocused_null (payload : Value) (self : IPC)
    (hwf : WellFormed self.windows_) (hid : payload.get "id" = .ok nullValue) :
    mutate "window-focused" payload self =
      ({ self with windows_ :=
          (self.windows_.map (setMember "focused" (booleanValue false))) }, none) := by
  have h := forEach_map clearFocused (setMember "focused" (booleanValue false)) self.windows_
    (fun w hw => clearFocused_entry w (hwf w hw))
  simp [mutate, hid, isNull, h]

theorem mutate_windowFocused_id (payload : Value) (self : IPC) (idv : Value) (k : Int)
    (hwf : WellFormed self.windows_) (hid : payload.get "id" = .ok idv)
    (hnn : idv.isNull = false) (hk : idv.asInt = .ok k) :
    mutate "window-focused" payload self =
      ({ self with windows_ := (self.windows_.map
          (fun w => setMember "focused" (booleanValue (decide (idVal w = k))) w)) }, none) := by
  have h := forEach_map (setFocusedById idv)
    (fun w => setMember "focused" (booleanValue (decide (idVal w = k))) w) self.windows_
    (fun w hw => setFocusedById_entry idv k w (hwf w hw) hk)
  simp [mutate, hid, hnn, h]

theorem modifyAt_wellFormed (body : Value → Value × Option Exc) (n : Nat) (ws : List Value)
    (hb : ∀ w, hasId w = true → hasId (body w).1 = true) (h : WellFormed ws) :
    WellFormed (modifyAt body n ws).1 := by
  induction ws generalizing n with
  | nil => cases n <;> simpa [modifyAt] using h
  | cons w rest ih =>
    have hw : hasId w = true := h w (List.mem_cons_self _ _)
    have hr : WellFormed rest := fun x hx => h x (List.mem_cons_of_mem _ hx)
    cases n with
    | zero =>
      intro x hx
      simp only [modifyAt, List.mem_cons] at hx
      rcases hx with rfl | hx
      · exact hb w hw
      · exact hr x hx
    | succ n =>
      intro x hx
      simp only [modifyAt, List.mem_cons] at hx
      rcases hx with rfl | hx
      · exact hw
      · exact ih n hr x hx

theorem eraseIdx_wellFormed (n : Nat) (ws : List Value) (h : WellFormed ws) :
    WellFormed (ws.eraseIdx n) :=
  fun v hv => h v ((List.eraseIdx_sublist ws n).subset hv)

theorem workspaces_mirrored (payload : Value) (self : IPC) (h : Mirrored self) :
    Mirrored (mutate "workspaces" payload self).1 := by
  cases hn : payload.getMemberNames with
  | error e =>
    simp only [mutate, if_true, hn]
    exact ⟨by intro v hv; simp at hv, h.2⟩
  | ok names =>
    have hp := pushWorkspaces_wellFormed payload names [] (by intro v hv; simp at hv)
    cases hc : pushWorkspaces payload names [] with
    | mk ws e =>
      rw [hc] at hp
      cases e with
      | some e =>
        simp only [mutate, if_true, hn, hc]
        exact ⟨hp, h.2⟩
      | none =>
        simp only [mutate, if_true, hn, hc]
        exact ⟨wellFormed_perm _ _ (sortById_perm ws) hp, h.2⟩

theorem windows_mirrored (payload : Value) (self : IPC) (h : Mirrored self) :
    Mirrored (mutate "windows" payload self).1 := by
  cases hn : payload.getMemberNames with
  | error e =>
    simp only [mutate, hn]
    simp only [String.reduceEq, if_false, if_true]
    exact ⟨h.1, by intro v hv; simp at hv⟩
  | ok names =>
    simp only [mutate, hn]
    simp only [String.reduceEq, if_false, if_true]
    exact ⟨h.1, pushWindows_wellFormed payload names [] (by intro v hv; simp at hv)⟩

theorem activeWorkspaceChanged_mirrored (payload : Value) (self : IPC) (h : Mirrored self) :
    Mirrored (mutate "active-workspace-changed" payload self).1 := by
  cases hid : idOf payload with
  | error e => simpa [mutate, hid] using h
  | ok id =>
    rw [mutate_activeWorkspaceChanged payload self id h.1 hid]
    refine ⟨?_, h.2⟩
    intro v hv
    obtain ⟨w, hw, rfl⟩ := List.mem_map.1 hv
    rw [hasId_markActive]; exact h.1 w hw

theorem workspaceRemoved_mirrored (payload : Value) (self : IPC) (h : Mirrored self) :
    Mirrored (mutate "workspace-removed" payload self).1 := by
  cases hid : idOf payload with
  | error e => simpa [mutate, hid] using h
  | ok id =>
    rcases split_at_first_id id self.workspaces_ with habs | ⟨pre, w, post, hsplit, hpre, hw⟩
    · rw [mutate_workspaceRemoved_absent payload self id h.1 hid habs]; exact h
    · have h1 := h.1
      rw [hsplit] at h1
      obtain ⟨hwpre, _, hwpost⟩ := wellFormed_split pre w post h1
      rw [mutate_workspaceRemoved_present payload self id pre w post hsplit hwpre hpre hw hid]
      exact ⟨wellFormed_append _ _ hwpre hwpost, h.2⟩

theorem workspaceChanged_mirrored (payload : Value) (self : IPC) (h : Mirrored self) :
    Mirrored (mutate "workspace-changed" payload self).1 := by
  cases hid : idOf payload with
  | error e => simpa [mutate, hid] using h
  | ok id =>
    rcases split_at_first_id id self.workspaces_ with habs | ⟨pre, w, post, hsplit, hpre, hw⟩
    · rw [mutate_workspaceChanged_absent payload self id h.1 hid habs]
      refine ⟨wellFormed_perm _ _ (sortById_perm _) ?_, h.2⟩
      refine wellFormed_append _ _ h.1 (wellFormed_singleton _ ?_)
      rw [hasId_withWorkspaceFields]; exact hasId_newEntry id (idOf_range payload id hid)
    · have h1 := h.1
      rw [hsplit] at h1
      obtain ⟨hwpre, hwe, hwpost⟩ := wellFormed_split pre w post h1
      rw [mutate_workspaceChanged_present payload self id pre w post hsplit hwpre hpre hw hwe hid]
      refine ⟨wellFormed_join _ _ _ hwpre ?_ hwpost, h.2⟩
      rw [hasId_withWorkspaceFields]; exact hwe

theorem windowChanged_mirrored (payload : Value) (self : IPC) (h : Mirrored self) :
    Mirrored (mutate "window-changed" payload self).1 := by
  cases hid : idOf payload with
  | error e => simpa [mutate, hid] using h
  | ok id =>
    rcases split_at_first_id id self.windows_ with habs | ⟨pre, w, post, hsplit, hpre, hw⟩
    · have hnew := hasId_windowUpdate payload id (objectValue []) hid ⟨[], rfl⟩
      simp only [mutate, hid, findIfId_none id _ h.2 habs]
      simp only [String.reduceEq, if_false, if_true]
      cases hc : andThen (copyMember "id" "id" payload) (copyWindowFields payload)
          (objectValue []) with
      | mk win e =>
        rw [hc] at hnew
        cases e with
        | some e => exact h
        | none => exact ⟨h.1, wellFormed_append _ _ h.2 (wellFormed_singleton win hnew)⟩
    · have h2 := h.2
      rw [hsplit] at h2
      obtain ⟨hwpre, hwe, hwpost⟩ := wellFormed_split pre w post h2
      simp only [mutate, hid, hsplit, findIfId_some id pre w post hwpre hpre hw, modifyAt_append]
      simp only [String.reduceEq, if_false, if_true]
      exact ⟨h.1, wellFormed_join _ _ _ hwpre
        (hasId_windowUpdate payload id w hid (hasId_isObject w hwe)) hwpost⟩

theorem windowClosed_mirrored (payload : Value) (self : IPC) (h : Mirrored self) :
    Mirrored (mutate "window-closed" payload self).1 := by
  cases hid : idOf payload with
  | error e => simpa [mutate, hid] using h
  | ok id =>
    rcases split_at_first_id id self.windows_ with habs | ⟨pre, w, post, hsplit, hpre, hw⟩
    · simpa [mutate, hid, findIfId_none id _ h.2 habs] using h
    · have h2 := h.2
      rw [hsplit] at h2
      obtain ⟨hwpre, _, hwpost⟩ := wellFormed_split pre w post h2
      simp only [mutate, hid, hsplit, findIfId_some id pre w post hwpre hpre hw, eraseIdx_append]
      simp only [String.reduceEq, if_false, if_true]
      exact ⟨h.1, wellFormed_append _ _ hwpre hwpost⟩

theorem hasId_setFocusedById (idv w : Value) (hw : hasId w = true) :
    hasId (setFocusedById idv w).1 = true := by
  cases hk : idv.asInt with
  | error e => rw [setFocusedById_throw idv e w hw hk]; exact hw
  | ok k =>
    rw [setFocusedById_entry idv k w hw hk]
    simp only
    rw [hasId_setMember _ _ _ (by decide)]; exact hw

theorem hasId_clearFocused (w : Value) (hw : hasId w = true) :
    hasId (clearFocused w).1 = true := by
  rw [clearFocused_entry w hw]
  simp only
  rw [hasId_setMember _ _ _ (by decide)]; exact hw

theorem windowFocused_mirrored (payload : Value) (self : IPC) (h : Mirrored self) :
    Mirrored (mutate "window-focused" payload self).1 := by
  cases hid : payload.get "id" with
  | error e => simpa [mutate, hid] using h
  | ok idv =>
    simp only [mutate, hid]
    simp only [String.reduceEq, if_false, if_true]
    refine ⟨h.1, ?_⟩
    split
    · exact forEach_wellFormed _ _ hasId_clearFocused h.2
    · exact forEach_wellFormed _ _ (hasId_setFocusedById idv) h.2

theorem mutate_mirrored (eventName : String) (payload : Value) (self : IPC)
    (h : Mirrored self) : Mirrored (mutate eventName payload self).1 := by
  by_cases h1 : eventName = "workspaces"
  · subst h1; exact workspaces_mirrored payload self h
  by_cases h2 : eventName = "active-workspace-changed"
  · subst h2; exact activeWorkspaceChanged_mirrored payload self h
  by_cases h3 : eventName = "workspace-changed"
  · subst h3; exact workspaceChanged_mirrored payload self h
  by_cases h4 : eventName = "workspace-removed"
  · subst h4; exact workspaceRemoved_mirrored payload self h
  by_cases h5 : eventName = "windows"
  · subst h5; exact windows_mirrored payload self h
  by_cases h6 : eventName = "window-changed"
  · subst h6; exact windowChanged_mirrored payload self h
  by_cases h7 : eventName = "window-closed"
  · subst h7; exact windowClosed_mirrored payload self h
  by_cases h8 : eventName = "window-focused"
  · subst h8; exact windowFocused_mirrored payload self h
  simpa [mutate, h1, h2, h3, h4, h5, h6, h7, h8] using h

/-- The unfolding of dispatch: either the mirror is untouched and nobody is
called, or the block ran on the event name and payload of the document. -/
theorem dispatch_cases (valueToString : Rat → String) (self : IPC) (ev : Value) :
    ((dispatch valueToString self ev).self = self ∧ (dispatch valueToString self ev).calls = []) ∨
    ∃ eventName payload, ev.get "event" >>= asString valueToString = .ok eventName ∧
      ev.get "data" = .ok payload ∧
      (dispatch valueToString self ev).self = (mutate eventName payload self).1 ∧
      (dispatch valueToString self ev).thrown = (mutate eventName payload self).2 := by
  cases h1 : ev.isMember "event" with
  | error e => left; simp [dispatch, h1]
  | ok b1 =>
    cases b1 with
    | false => left; simp [dispatch, h1]
    | true =>
      cases h2 : ev.isMember "data" with
      | error e => left; simp [dispatch, h1, h2]
      | ok b2 =>
        cases b2 with
        | false => left; simp [dispatch, h1, h2]
        | true =>
          cases h3 : ev.get "event" with
          | error e => left; simp [dispatch, h1, h2, h3]
          | ok name =>
            cases h4 : name.asString valueToString with
            | error e => left; simp [dispatch, h1, h2, h3, h4]
            | ok eventName =>
              cases h5 : ev.get "data" with
              | error e => left; simp [dispatch, h1, h2, h3, h4, h5]
              | ok payload =>
                right
                refine ⟨eventName, payload, ?_, rfl, ?_⟩
                · simp [bind, Except.bind, h4]
                · cases hm : mutate eventName payload self with
                  | mk s1 e => cases e <;> simp [dispatch, h1, h2, h3, h4, h5, hm]

theorem dispatch_mirrored (valueToString : Rat → String) (self : IPC) (ev : Value)
    (h : Mirrored self) : Mirrored (dispatch valueToString self ev).self := by
  rcases dispatch_cases valueToString self ev with ⟨hs, _⟩ | ⟨n, p, _, _, hs, _⟩
  · rw [hs]; exact h
  · rw [hs]; exact mutate_mirrored n p self h

theorem reachable_mirrored (valueToString : Rat → String) (self : IPC)
    (h : Reachable valueToString self) : Mirrored self := by
  induction h with
  | init => exact ⟨by intro v hv; simp [emptyIPC] at hv, by intro v hv; simp [emptyIPC] at hv⟩
  | event s ev _ ih => exact dispatch_mirrored valueToString s ev ih
  | register s name h _ ih => cases h <;> exact ih
  | unregister s h _ ih => cases h <;> exact ih

/-! ## The window events, on stored entries -/

theorem idOf_withWindowFields (src v : Value) :
    idOf (withWindowFields src v) = idOf v := by
  unfold withWindowFields
  simp only [idOf_setMember _ _ _ (show ("focused" : String) ≠ "id" by decide),
    idOf_setMember _ _ _ (show ("activated" : String) ≠ "id" by decide),
    idOf_setMember _ _ _ (show ("tiled" : String) ≠ "id" by decide),
    idOf_setMember _ _ _ (show ("maximized" : String) ≠ "id" by decide),
    idOf_setMember _ _ _ (show ("fullscreened" : String) ≠ "id" by decide),
    idOf_setMember _ _ _ (show ("location" : String) ≠ "id" by decide),
    idOf_setMember _ _ _ (show ("size" : String) ≠ "id" by decide),
    idOf_setMember _ _ _ (show ("workspace_id" : String) ≠ "id" by decide),
    idOf_setMember _ _ _ (show ("app_id" : String) ≠ "id" by decide),
    idOf_setMember _ _ _ (show ("title" : String) ≠ "id" by decide)]

/-- The window entry after the id and the ten fields of the payload have been
written into it. -/
theorem windowUpdate_object (payload : Value) (id : Int) (ms : List (String × Value))
    (hid : idOf payload = .ok id) :
    andThen (copyMember "id" "id" payload) (copyWindowFields payload) (objectValue ms) =
      (withWindowFields payload (setMember "id" (member payload "id") (objectValue ms)),
        none) := by
  obtain ⟨ho, _⟩ := idOf_payload payload id hid
  have h1 := copyMember_object "id" "id" payload ms ho
  obtain ⟨ms1, hms1⟩ := setMember_object "id" (member payload "id") ms
  simp only [andThen, h1]
  rw [hms1]
  exact copyWindowFields_object payload ms1 ho

theorem idOf_windowUpdate (payload : Value) (id : Int) (ms : List (String × Value))
    (hid : idOf payload = .ok id) :
    idOf (withWindowFields payload (setMember "id" (member payload "id") (objectValue ms))) =
      .ok id := by
  obtain ⟨_, ha⟩ := idOf_payload payload id hid
  rw [idOf_withWindowFields]
  simp [idOf, setMember, Value.get, find_insertMember_self, ha]

theorem mutate_windowChanged_present (payload : Value) (self : IPC) (id : Int)
    (pre : List Value) (w : Value) (post : List Value)
    (hsplit : self.windows_ = pre ++ w :: post) (hwf : WellFormed pre)
    (hpre : ∀ p ∈ pre, idOf p ≠ .ok id) (hw : idOf w = .ok id) (hwe : hasId w = true)
    (hid : idOf payload = .ok id) :
    mutate "window-changed" payload self =
      ({ self with windows_ := pre ++
          withWindowFields payload (setMember "id" (member payload "id") w) :: post },
        none) := by
  obtain ⟨ms, rfl⟩ := hasId_isObject w hwe
  have hc := windowUpdate_object payload id ms hid
  simp [mutate, hid, hsplit, findIfId_some id pre _ post hwf hpre hw, modifyAt_append, hc]

theorem mutate_windowChanged_absent (payload : Value) (self : IPC) (id : Int)
    (hwf : WellFormed self.windows_) (hid : idOf payload = .ok id)
    (habs : ∀ w ∈ self.windows_, idOf w ≠ .ok id) :
    mutate "window-changed" payload self =
      ({ self with windows_ := self.windows_ ++
          [withWindowFields payload (setMember "id" (member payload "id") (objectValue []))] },
        none) := by
  have hc := windowUpdate_object payload id [] hid
  simp [mutate, hid, findIfId_none id _ hwf habs, hc]

theorem mutate_windowClosed_absent (payload : Value) (self : IPC) (id : Int)
    (hwf : WellFormed self.windows_) (hid : idOf payload = .ok id)
    (habs : ∀ w ∈ self.windows_, idOf w ≠ .ok id) :
    mutate "window-closed" payload self = (self, none) := by
  simp [mutate, hid, findIfId_none id _ hwf habs]

theorem mutate_windowClosed_present (payload : Value) (self : IPC) (id : Int)
    (pre : List Value) (w : Value) (post : List Value)
    (hsplit : self.windows_ = pre ++ w :: post) (hwf : WellFormed pre)
    (hpre : ∀ p ∈ pre, idOf p ≠ .ok id) (hw : idOf w = .ok id)
    (hid : idOf payload = .ok id) :
    mutate "window-closed" payload self =
      ({ self with windows_ := pre ++ post }, none) := by
  simp [mutate, hid, hsplit, findIfId_some id pre w post hwf hpre hw, eraseIdx_append]

theorem isEvent_mkEvent (name : String) (payload : Value) :
    IsEvent (mkEvent name payload) name payload := by
  simp [IsEvent, mkEvent, isMember, Value.get, find]

theorem dispatch_event (valueToString : Rat → String) (self : IPC) (ev : Value)
    (name : String) (payload : Value) (h : IsEvent ev name payload) :
    dispatch valueToString self ev =
      match mutate name payload self with
      | (self1, some e) => { self := self1, calls := [], thrown := some e }
      | (self1, none) =>
        { self := self1, calls := notify self1 name ev self1.callbacks_, thrown := none } := by
  obtain ⟨h1, h2, h3, h4⟩ := h
  simp [dispatch, h1, h2, h3, h4, asString]

theorem dispatch_event_self (valueToString : Rat → String) (self : IPC) (ev : Value)
    (name : String) (payload : Value) (h : IsEvent ev name payload) :
    (dispatch valueToString self ev).self = (mutate name payload self).1 := by
  rw [dispatch_event valueToString self ev name payload h]
  cases hm : mutate name payload self with
  | mk s e => cases e <;> rfl

theorem dispatch_event_thrown (valueToString : Rat → String) (self : IPC) (ev : Value)
    (name : String) (payload : Value) (h : IsEvent ev name payload) :
    (dispatch valueToString self ev).thrown = (mutate name payload self).2 := by
  rw [dispatch_event valueToString self ev name payload h]
  cases hm : mutate name payload self with
  | mk s e => cases e <;> rfl

/-! ## C1: the workspace collection after a workspaces event that throws -/

/-- C1, at the failing input.  From the empty mirror the line
{"event":"workspaces","data":{"10":{},"9":{},"x":{}}} makes parseIPC push the
workspaces 10 and 9 (the member names come in key order "10", "9", "x"), then
std::stoi throws on "x" before the sort is reached: the state is reachable,
the exception is std::invalid_argument, and the collection is left as 10, 9,
which is not ascending by id.  (The document is one the parser builds: its
keys are in ascending order.) -/
theorem workspaces_bad_key_leaves_unsorted :
    orderedValue evWorkspacesBadKey = true ∧
    Reachable printNoDouble (dispatch printNoDouble emptyIPC evWorkspacesBadKey).self ∧
    (dispatch printNoDouble emptyIPC evWorkspacesBadKey).thrown = some .invalid_argument ∧
    ids (dispatch printNoDouble emptyIPC evWorkspacesBadKey).self.workspaces_ = [10, 9] ∧
    ¬ SortedById (dispatch printNoDouble emptyIPC evWorkspacesBadKey).self.workspaces_ :=
  ⟨by decide, Reachable.event emptyIPC evWorkspacesBadKey Reachable.init, by decide, by decide,
    by decide⟩

/-! ## C2: active-workspace-changed -/

theorem get_markActive_active (id : Int) (w : Value) (hw : hasId w = true) :
    (markActive id w).get "is_active" = .ok (booleanValue (decide (idVal w = id))) := by
  obtain ⟨ms, rfl⟩ := hasId_isObject w hw
  unfold markActive
  rw [get_setMember_ne _ _ _ _ (by decide)]
  exact get_setMember_self _ _ _

theorem get_markActive_focused (id : Int) (w : Value) (hw : hasId w = true) :
    (markActive id w).get "is_focused" = .ok (booleanValue (decide (idVal w = id))) := by
  obtain ⟨ms, rfl⟩ := hasId_isObject w hw
  unfold markActive
  exact get_setMember_self _ _ _

theorem idVal_markActive (id : Int) (w : Value) : idVal (markActive id w) = idVal w := by
  simp [idVal, idOf_markActive]

theorem isActiveFocused_markActive (id : Int) (w : Value) (hw : hasId w = true) :
    isActiveFocused (markActive id w) = decide (idVal w = id) := by
  unfold isActiveFocused
  rw [get_markActive_active id w hw, get_markActive_focused id w hw]
  by_cases h : idVal w = id <;> simp [h]

theorem count_of_nodup (K : Int) (l : List Int) (h : l.Nodup) :
    (l.filter (fun i => decide (i = K))).length = if K ∈ l then 1 else 0 := by
  induction l with
  | nil => simp
  | cons a rest ih =>
    have hn := List.nodup_cons.1 h
    by_cases ha : a = K
    · subst ha
      have : ¬ a ∈ rest := hn.1
      simp [List.filter_cons, ih hn.2, this]
    · have hk : ¬ K = a := fun hc => ha hc.symm
      simp [List.filter_cons, ha, ih hn.2, hk]

theorem filter_map_length (ws : List Value) (g : Value → Value) (p : Value → Bool) (K : Int)
    (h : ∀ w ∈ ws, p (g w) = decide (idVal w = K)) :
    ((ws.map g).filter p).length = ((ids ws).filter (fun i => decide (i = K))).length := by
  induction ws with
  | nil => rfl
  | cons w rest ih =>
    have hw := h w (List.mem_cons_self _ _)
    have hr := ih (fun x hx => h x (List.mem_cons_of_mem _ hx))
    simp only [ids] at hr
    by_cases hk : idVal w = K
    · simp [ids, List.filter_cons, hw, hk, hr]
    · simp [ids, List.filter_cons, hw, hk, hr]

/-- C2, counterexample.  The state after the line
{"event":"workspaces","data":{"03":{},"3":{}}} is reachable from the empty
mirror and holds two workspaces with id 3 (std::stoi reads 3 from both keys);
the line {"event":"active-workspace-changed","data":{"id":3}} then leaves two
workspaces with is_active = true and is_focused = true, not exactly one. -/
theorem two_active_workspaces_after_same_id_keys :
    orderedValue evWorkspacesSameId = true ∧ orderedValue evActivate3 = true ∧
    Reachable printNoDouble (dispatch printNoDouble emptyIPC evWorkspacesSameId).self ∧
    ids (dispatch printNoDouble emptyIPC evWorkspacesSameId).self.workspaces_ = [3, 3] ∧
    (dispatch printNoDouble (dispatch printNoDouble emptyIPC evWorkspacesSameId).self
      evActivate3).thrown = none ∧
    ((dispatch printNoDouble (dispatch printNoDouble emptyIPC evWorkspacesSameId).self
      evActivate3).self.workspaces_.filter isActiveFocused).length = 2 :=
  ⟨by decide, by decide, Reachable.event emptyIPC evWorkspacesSameId Reachable.init, by decide,
    by decide, by decide⟩

/-- C2, amended.  On a reachable mirror whose workspace ids are pairwise
distinct, an active-workspace-changed event whose id converts to the int K is
applied without an exception, keeps the windows, keeps the workspaces and
their ids, sets is_active and is_focused to true on every workspace with id K
and to false on every other workspace; so exactly one workspace has both flags
true when id K is present, and none when it is absent. -/
theorem activeWorkspaceChanged_marks_one (valueToString : Rat → String) (self : IPC)
    (ev payload : Value) (K : Int)
    (hreach : Reachable valueToString self)
    (hdistinct : (ids self.workspaces_).Nodup)
    (hev : IsEvent ev "active-workspace-changed" payload)
    (hid : idOf payload = .ok K) :
    (dispatch valueToString self ev).thrown = none ∧
    (dispatch valueToString self ev).self.windows_ = self.windows_ ∧
    ids (dispatch valueToString self ev).self.workspaces_ = ids self.workspaces_ ∧
    (∀ w ∈ (dispatch valueToString self ev).self.workspaces_,
      (idVal w = K → w.get "is_active" = .ok (booleanValue true) ∧
        w.get "is_focused" = .ok (booleanValue true)) ∧
      (idVal w ≠ K → w.get "is_active" = .ok (booleanValue false) ∧
        w.get "is_focused" = .ok (booleanValue false))) ∧
    ((dispatch valueToString self ev).self.workspaces_.filter isActiveFocused).length =
      (if K ∈ ids self.workspaces_ then 1 else 0) := by
  have hwf := (reachable_mirrored valueToString self hreach).1
  have hm := mutate_activeWorkspaceChanged payload self K hwf hid
  rw [dispatch_event_thrown valueToString self ev _ payload hev,
    dispatch_event_self valueToString self ev _ payload hev, hm]
  refine ⟨rfl, rfl, ?_, ?_, ?_⟩
  · simp [ids, List.map_map, Function.comp_def, idVal_markActive]
  · intro w hw
    obtain ⟨w0, hw0, rfl⟩ := List.mem_map.1 hw
    have h0 := hwf w0 hw0
    rw [idVal_markActive, get_markActive_active K w0 h0, get_markActive_focused K w0 h0]
    constructor
    · intro h; simp [h]
    · intro h; simp [h]
  · simp only
    rw [filter_map_length self.workspaces_ (markActive K) isActiveFocused K
      (fun w hw => isActiveFocused_markActive K w (hwf w hw))]
    exact count_of_nodup K _ hdistinct

/-- C2, witness: the amended statement on the reachable mirror with the
workspaces 3 and 5 and the event with id 3. -/
theorem activeWorkspaceChanged_marks_one_witness :
    Reachable printNoDouble (dispatch printNoDouble emptyIPC evWorkspaces35).self ∧
    (ids (dispatch printNoDouble emptyIPC evWorkspaces35).self.workspaces_).Nodup ∧
    IsEvent evActivate3 "active-workspace-changed" (objectValue [("id", intValue 3)]) ∧
    idOf (objectValue [("id", intValue 3)]) = .ok 3 ∧
    ((dispatch printNoDouble (dispatch printNoDouble emptyIPC evWorkspaces35).self
      evActivate3).self.workspaces_.filter isActiveFocused).length = 1 :=
  ⟨Reachable.event emptyIPC evWorkspaces35 Reachable.init, by decide,
    isEvent_mkEvent _ _, rfl,
    (activeWorkspaceChanged_marks_one printNoDouble
      (dispatch printNoDouble emptyIPC evWorkspaces35).self evActivate3
      (objectValue [("id", intValue 3)]) 3
      (Reachable.event emptyIPC evWorkspaces35 Reachable.init) (by decide)
      (isEvent_mkEvent _ _) rfl).2.2.2.2⟩

/-! ## C3: how many windows are focused -/

theorem isFocused_setMember (b : Bool) (w : Value) (hw : hasId w = true) :
    isFocused (setMember "focused" (booleanValue b) w) = b := by
  obtain ⟨ms, rfl⟩ := hasId_isObject w hw
  unfold isFocused
  rw [get_setMember_self]
  cases b <;> rfl

theorem mutate_windows_sublist (name : String) (payload : Value) (self : IPC)
    (h1 : name ≠ "windows") (h2 : name ≠ "window-changed") (h3 : name ≠ "window-focused") :
    List.Sublist (mutate name payload self).1.windows_ self.windows_ := by
  unfold mutate
  simp only [h1, h2, h3, if_false]
  repeat' split
  all_goals first
    | exact List.Sublist.refl _
    | exact List.eraseIdx_sublist _ _

theorem isNull_eq_true (v : Value) (h : v.isNull = true) : v = nullValue := by
  cases v <;> simp_all [isNull]

theorem filter_map_none (ws : List Value) (g : Value → Value) (p : Value → Bool)
    (h : ∀ w ∈ ws, p (g w) = false) : (ws.map g).filter p = [] := by
  induction ws with
  | nil => rfl
  | cons w rest ih =>
    have hw := h w (List.mem_cons_self _ _)
    have hr := ih (fun x hx => h x (List.mem_cons_of_mem _ hx))
    simp [List.filter_cons, hw, hr]

theorem windowFocused_count (payload : Value) (self : IPC)
    (hwf : WellFormed self.windows_) (hdistinct : (ids self.windows_).Nodup)
    (hthrown : (mutate "window-focused" payload self).2 = none) :
    ((mutate "window-focused" payload self).1.windows_.filter isFocused).length ≤ 1 := by
  cases hid : payload.get "id" with
  | error e => simp [mutate, hid] at hthrown
  | ok idv =>
    cases hn : idv.isNull with
    | true =>
      have hnull := isNull_eq_true idv hn
      subst hnull
      rw [mutate_windowFocused_null payload self hwf hid]
      simp only
      rw [filter_map_none self.windows_ _ isFocused
        (fun w hw => isFocused_setMember false w (hwf w hw))]
      simp
    | false =>
      cases hk : idv.asInt with
      | ok k =>
        rw [mutate_windowFocused_id payload self idv k hwf hid hn hk]
        simp only
        rw [filter_map_length self.windows_ _ isFocused k
          (fun w hw => isFocused_setMember _ w (hwf w hw)), count_of_nodup k _ hdistinct]
        split <;> omega
      | error e =>
        cases hws : self.windows_ with
        | nil => simp [mutate, hid, hn, hws, forEach]
        | cons w rest =>
          have hw : hasId w = true := hwf w (by rw [hws]; exact List.mem_cons_self _ _)
          have ht := forEach_throw_head (setFocusedById idv) w rest e
            (setFocusedById_throw idv e w hw hk)
          simp [mutate, hid, hn, hws, ht] at hthrown

theorem isFocused_withWindowFields (payload : Value) (ms : List (String × Value)) :
    isFocused (withWindowFields payload (objectValue ms)) = payloadFocused payload := by
  have h : (withWindowFields payload (objectValue ms)).get "focused" =
      .ok (member payload "focused") := by
    simp [withWindowFields, setMember, Value.get, find_insertMember_self]
  unfold isFocused payloadFocused
  rw [h]
  generalize member payload "focused" = x
  cases x with
  | booleanValue b => cases b <;> rfl
  | _ => rfl

theorem filter_length_append_one (p : Value → Bool) (ws : List Value) (new : Value) :
    ((ws ++ [new]).filter p).length = (ws.filter p).length + (if p new then 1 else 0) := by
  cases h : p new <;> simp [List.filter_append, List.filter_cons, h]

theorem filter_length_replace (p : Value → Bool) (pre : List Value) (w w1 : Value)
    (post : List Value) :
    ((pre ++ w1 :: post).filter p).length ≤ ((pre ++ w :: post).filter p).length + 1 ∧
    (p w1 = false →
      ((pre ++ w1 :: post).filter p).length ≤ ((pre ++ w :: post).filter p).length) := by
  cases h1 : p w1 <;> cases h : p w <;>
    simp [List.filter_append, List.filter_cons, h, h1] <;> omega

theorem windowChanged_count (payload : Value) (self : IPC) (hm : Mirrored self) :
    ((mutate "window-changed" payload self).1.windows_.filter isFocused).length ≤
      (self.windows_.filter isFocused).length + 1 ∧
    (payloadFocused payload = false →
      ((mutate "window-changed" payload self).1.windows_.filter isFocused).length ≤
        (self.windows_.filter isFocused).length) := by
  cases hid : idOf payload with
  | error e =>
    have h : (mutate "window-changed" payload self).1 = self := by simp [mutate, hid]
    rw [h]
    exact ⟨Nat.le_succ _, fun _ => Nat.le_refl _⟩
  | ok id =>
    rcases split_at_first_id id self.windows_ with habs | ⟨pre, w, post, hsplit, hpre, hw⟩
    · rw [mutate_windowChanged_absent payload self id hm.2 hid habs]
      obtain ⟨ms1, hms1⟩ := setMember_object "id" (member payload "id") []
      simp only
      rw [filter_length_append_one, hms1, isFocused_withWindowFields]
      constructor
      · split <;> omega
      · intro hf; simp [hf]
    · have hw1 := hm.2
      rw [hsplit] at hw1
      obtain ⟨hwpre, hwe, _⟩ := wellFormed_split pre w post hw1
      rw [mutate_windowChanged_present payload self id pre w post hsplit hwpre hpre hw hwe hid]
      obtain ⟨ms, rfl⟩ := hasId_isObject w hwe
      obtain ⟨ms1, hms1⟩ := setMember_object "id" (member payload "id") ms
      simp only
      rw [hsplit, hms1]
      have h := filter_length_replace isFocused pre (objectValue ms)
        (withWindowFields payload (objectValue ms1)) post
      rw [isFocused_withWindowFields] at h
      exact h

theorem pushWindows_focused (payload : Value) (names : List String) (acc : List Value) :
    ∃ pre suf, names = pre ++ suf ∧
      (pushWindows payload names acc).1.map isFocused =
        acc.map isFocused ++ pre.map (fun key => payloadFocused (member payload key)) := by
  induction names generalizing acc with
  | nil => exact ⟨[], [], rfl, by simp [pushWindows]⟩
  | cons key rest ih =>
    unfold pushWindows
    cases hg : payload.get key with
    | error e => exact ⟨[], key :: rest, rfl, by simp⟩
    | ok win =>
      have hwin : win = member payload key := by
        have ho := isObjectOrNull_of_get payload key win hg
        rw [get_of_isObjectOrNull payload key ho] at hg
        simpa using hg.symm
      cases hs : stoi key with
      | error e => exact ⟨[], key :: rest, rfl, by simp⟩
      | ok id =>
        cases hc : copyWindowFields win (objectValue [("id", intValue id)]) with
        | mk w e =>
          cases e with
          | some e => exact ⟨[], key :: rest, rfl, by simp [hc]⟩
          | none =>
            have hw : isFocused w = payloadFocused (member payload key) := by
              cases ho : isObjectOrNull win with
              | false => rw [copyWindowFields_error win _ ho] at hc; simp at hc
              | true =>
                rw [copyWindowFields_object win _ ho] at hc
                simp only [Prod.mk.injEq, and_true] at hc
                rw [← hc, isFocused_withWindowFields, hwin]
            obtain ⟨pre, suf, hn, hi⟩ := ih (acc ++ [w])
            refine ⟨key :: pre, suf, by rw [hn]; rfl, ?_⟩
            simp only [hc]
            rw [hi]
            simp [hw]

theorem windows_count (payload : Value) (self : IPC) :
    ((mutate "windows" payload self).1.windows_.filter isFocused).length ≤
      focusedMembers payload := by
  cases hn : payload.getMemberNames with
  | error e =>
    simp only [mutate, hn]
    simp only [String.reduceEq, if_false, if_true]
    simp
  | ok names =>
    obtain ⟨pre, suf, hsplit, hi⟩ := pushWindows_focused payload names []
    have h1 : ((pushWindows payload names []).1.filter isFocused).length =
        (pre.filter (fun key => payloadFocused (member payload key))).length := by
      rw [← List.countP_eq_length_filter, ← List.countP_eq_length_filter]
      have h2 : List.countP isFocused (pushWindows payload names []).1 =
          List.countP id ((pushWindows payload names []).1.map isFocused) := by
        rw [List.countP_map]; rfl
      rw [h2, hi, List.map_nil, List.nil_append, List.countP_map]; rfl
    have h3 : (pre.filter (fun key => payloadFocused (member payload key))).length ≤
        (names.filter (fun key => payloadFocused (member payload key))).length := by
      rw [hsplit, List.filter_append, List.length_append]
      exact Nat.le_add_right _ _
    simp only [mutate, hn]
    simp only [String.reduceEq, if_false, if_true]
    simp only [focusedMembers, hn]
    rw [h1]; exact h3

/-- C3, counterexample.  From the empty mirror the line
{"event":"windows","data":{"1":{"focused":true},"2":{"focused":true}}} is
applied without an exception and leaves the two windows 1 and 2, both with
focused = true.  Likewise, after the line
{"event":"windows","data":{"1":{"focused":true}}} the line
{"event":"window-changed","data":{"focused":true,"id":2}} adds window 2 with
focused = true and leaves window 1 focused too. -/
theorem windows_event_loads_two_focused :
    orderedValue evWindowsTwoFocused = true ∧
    (dispatch printNoDouble emptyIPC evWindowsTwoFocused).thrown = none ∧
    ids (dispatch printNoDouble emptyIPC evWindowsTwoFocused).self.windows_ = [1, 2] ∧
    ((dispatch printNoDouble emptyIPC evWindowsTwoFocused).self.windows_.filter
      isFocused).length = 2 ∧
    orderedValue evWindows1Focused = true ∧ orderedValue evChange2Focused = true ∧
    (dispatch printNoDouble (dispatch printNoDouble emptyIPC evWindows1Focused).self
      evChange2Focused).thrown = none ∧
    ids (dispatch printNoDouble (dispatch printNoDouble emptyIPC evWindows1Focused).self
      evChange2Focused).self.windows_ = [1, 2] ∧
    ((dispatch printNoDouble (dispatch printNoDouble emptyIPC evWindows1Focused).self
      evChange2Focused).self.windows_.filter isFocused).length = 2 :=
  ⟨by decide, by decide, by decide, by decide, by decide, by decide, by decide, by decide,
    by decide⟩

/-- C3, amended.  On a reachable mirror whose window ids are pairwise distinct:
a window-focused event that parseIPC applies without an exception leaves at
most one window with focused = true; an event that is neither windows nor
window-changed nor window-focused leaves no more focused windows than there
were; a window-changed event leaves at most one focused window more than there
were, and no more than there were when the focused member of its payload is
not true; and a windows event leaves at most as many focused windows as its
payload has members whose focused member is true. -/
theorem focused_windows_bound (valueToString : Rat → String) (self : IPC)
    (ev : Value) (name : String) (payload : Value)
    (hreach : Reachable valueToString self)
    (hdistinct : (ids self.windows_).Nodup)
    (hev : IsEvent ev name payload) :
    (name = "window-focused" → (dispatch valueToString self ev).thrown = none →
      ((dispatch valueToString self ev).self.windows_.filter isFocused).length ≤ 1) ∧
    (name ≠ "windows" → name ≠ "window-changed" → name ≠ "window-focused" →
      ((dispatch valueToString self ev).self.windows_.filter isFocused).length ≤
        (self.windows_.filter isFocused).length) ∧
    (name = "window-changed" →
      ((dispatch valueToString self ev).self.windows_.filter isFocused).length ≤
        (self.windows_.filter isFocused).length + 1 ∧
      (payloadFocused payload = false →
        ((dispatch valueToString self ev).self.windows_.filter isFocused).length ≤
          (self.windows_.filter isFocused).length)) ∧
    (name = "windows" →
      ((dispatch valueToString self ev).self.windows_.filter isFocused).length ≤
        focusedMembers payload) := by
  have hm := reachable_mirrored valueToString self hreach
  rw [dispatch_event_thrown valueToString self ev name payload hev,
    dispatch_event_self valueToString self ev name payload hev]
  refine ⟨?_, ?_, ?_, ?_⟩
  · intro hname hthrown
    subst hname
    exact windowFocused_count payload self hm.2 hdistinct hthrown
  · intro h1 h2 h3
    exact ((mutate_windows_sublist name payload self h1 h2 h3).filter isFocused).length_le
  · intro hname
    subst hname
    exact windowChanged_count payload self hm
  · intro hname
    subst hname
    exact windows_count payload self

/-- C3, witness: on the reachable mirror that holds the windows 1 and 2, both
focused, window-focused with id 2 is applied without an exception and brings
the number of focused windows from two down to one. -/
theorem focused_windows_bound_witness :
    Reachable printNoDouble (dispatch printNoDouble emptyIPC evWindowsTwoFocused).self ∧
    (ids (dispatch printNoDouble emptyIPC evWindowsTwoFocused).self.windows_).Nodup ∧
    IsEvent evFocus2 "window-focused" (objectValue [("id", intValue 2)]) ∧
    ((dispatch printNoDouble emptyIPC evWindowsTwoFocused).self.windows_.filter
      isFocused).length = 2 ∧
    (dispatch printNoDouble (dispatch printNoDouble emptyIPC evWindowsTwoFocused).self
      evFocus2).thrown = none ∧
    (dispatch printNoDouble (dispatch printNoDouble emptyIPC evWindowsTwoFocused).self
      evFocus2).self.windows_.map isFocused = [false, true] ∧
    ((dispatch printNoDouble (dispatch printNoDouble emptyIPC evWindowsTwoFocused).self
      evFocus2).self.windows_.filter isFocused).length ≤ 1 :=
  ⟨Reachable.event emptyIPC evWindowsTwoFocused Reachable.init, by decide,
    isEvent_mkEvent _ _, by decide, by decide, by decide,
    (focused_windows_bound printNoDouble
      (dispatch printNoDouble emptyIPC evWindowsTwoFocused).self
      evFocus2 "window-focused" (objectValue [("id", intValue 2)])
      (Reachable.event emptyIPC evWindowsTwoFocused Reachable.init) (by decide)
      (isEvent_mkEvent _ _)).1 rfl (by decide)⟩

/-! ## C4: window-focused -/

/-- C4, counterexample.  The mirror after the line
{"event":"windows","data":{"7":{"focused":true}}} holds window 7 with
focused = true.  The line {"event":"window-focused","data":{"id":2147483648}}
carries an integer id that no int holds: asInt throws Json::LogicError in the
first pass of the loop, and window 7, whose id is not the id of the event,
keeps focused = true. -/
theorem windowFocused_beyond_int_keeps_focus :
    orderedValue evWindows7Focused = true ∧ orderedValue evFocusBeyondInt = true ∧
    ids (dispatch printNoDouble emptyIPC evWindows7Focused).self.windows_ = [7] ∧
    (dispatch printNoDouble (dispatch printNoDouble emptyIPC evWindows7Focused).self
      evFocusBeyondInt).thrown = some .logic_error ∧
    ids (dispatch printNoDouble (dispatch printNoDouble emptyIPC evWindows7Focused).self
      evFocusBeyondInt).self.windows_ = [7] ∧
    (dispatch printNoDouble (dispatch printNoDouble emptyIPC evWindows7Focused).self
      evFocusBeyondInt).self.windows_.map isFocused = [true] :=
  ⟨by decide, by decide, by decide, by decide, by decide, by decide⟩

/-- C4, amended.  On every mirror whose windows are entries (objects with an id
that asInt converts, as parseIPC stores them), window-focused is applied
without an exception and keeps the windows and their ids; with a null id it
leaves focused = false on every window; with an id that converts to the int K
it leaves focused = true on every window with id K and focused = false on
every window whose id is not K.  In particular, after the windows event that
loads window 7 with focused = false, window-focused with id 7 leaves window 7
focused and no other window focused. -/
theorem windowFocused_sets_by_id (valueToString : Rat → String) (self : IPC)
    (ev payload : Value)
    (hwf : WellFormed self.windows_)
    (hev : IsEvent ev "window-focused" payload) :
    (payload.get "id" = .ok nullValue →
      (dispatch valueToString self ev).thrown = none ∧
      ids (dispatch valueToString self ev).self.windows_ = ids self.windows_ ∧
      ∀ w ∈ (dispatch valueToString self ev).self.windows_,
        w.get "focused" = .ok (booleanValue false)) ∧
    (∀ idv K, payload.get "id" = .ok idv → idv.isNull = false → idv.asInt = .ok K →
      (dispatch valueToString self ev).thrown = none ∧
      ids (dispatch valueToString self ev).self.windows_ = ids self.windows_ ∧
      ∀ w ∈ (dispatch valueToString self ev).self.windows_,
        (idVal w = K → w.get "focused" = .ok (booleanValue true)) ∧
        (idVal w ≠ K → w.get "focused" = .ok (booleanValue false))) ∧
    (ids (dispatch printNoDouble (dispatch printNoDouble emptyIPC evWindows7).self
        evFocus7).self.windows_ = [7] ∧
      (dispatch printNoDouble (dispatch printNoDouble emptyIPC evWindows7).self
        evFocus7).self.windows_.map isFocused = [true]) := by
  rw [dispatch_event_thrown valueToString self ev _ payload hev,
    dispatch_event_self valueToString self ev _ payload hev]
  refine ⟨?_, ?_, by decide, by decide⟩
  · intro hid
    rw [mutate_windowFocused_null payload self hwf hid]
    refine ⟨rfl, ?_, ?_⟩
    · simp [ids, List.map_map, Function.comp_def, idVal_setMember]
    · intro w hw
      obtain ⟨w0, hw0, rfl⟩ := List.mem_map.1 hw
      obtain ⟨ms, rfl⟩ := hasId_isObject w0 (hwf w0 hw0)
      exact get_setMember_self _ _ _
  · intro idv K hid hnn hk
    rw [mutate_windowFocused_id payload self idv K hwf hid hnn hk]
    refine ⟨rfl, ?_, ?_⟩
    · simp [ids, List.map_map, Function.comp_def, idVal_setMember]
    · intro w hw
      obtain ⟨w0, hw0, rfl⟩ := List.mem_map.1 hw
      obtain ⟨ms, rfl⟩ := hasId_isObject w0 (hwf w0 hw0)
      rw [idVal_setMember _ _ _ (by decide), get_setMember_self]
      constructor
      · intro h; simp [h]
      · intro h; simp [h]

/-- C4, witness: the amended statement on the mirror that holds the unfocused
window 7 and the event with id 7. -/
theorem windowFocused_sets_by_id_witness :
    WellFormed (dispatch printNoDouble emptyIPC evWindows7).self.windows_ ∧
    IsEvent evFocus7 "window-focused" (objectValue [("id", intValue 7)]) ∧
    (dispatch printNoDouble (dispatch printNoDouble emptyIPC evWindows7).self
      evFocus7).thrown = none ∧
    ∀ w ∈ (dispatch printNoDouble (dispatch printNoDouble emptyIPC evWindows7).self
        evFocus7).self.windows_,
      (idVal w = 7 → w.get "focused" = .ok (booleanValue true)) ∧
      (idVal w ≠ 7 → w.get "focused" = .ok (booleanValue false)) :=
  ⟨by decide, isEvent_mkEvent _ _,
    ((windowFocused_sets_by_id printNoDouble (dispatch printNoDouble emptyIPC evWindows7).self
      evFocus7 (objectValue [("id", intValue 7)]) (by decide) (isEvent_mkEvent _ _)).2.1
      (intValue 7) 7 rfl rfl rfl).1,
    ((windowFocused_sets_by_id printNoDouble (dispatch printNoDouble emptyIPC evWindows7).self
      evFocus7 (objectValue [("id", intValue 7)]) (by decide) (isEvent_mkEvent _ _)).2.1
      (intValue 7) 7 rfl rfl rfl).2.2⟩

/-! ## C5: workspace-removed twice -/

theorem idOf_ne_of_idVal_ne (w : Value) (K : Int) (h : idVal w ≠ K) : idOf w ≠ .ok K := by
  intro hc
  exact h (by simp [idVal, hc])

theorem idVal_of_idOf (w : Value) (K : Int) (h : idOf w = .ok K) : idVal w = K := by
  simp [idVal, h]

theorem absent_of_not_mem (ws : List Value) (K : Int) (h : K ∉ ids ws) :
    ∀ w ∈ ws, idOf w ≠ .ok K := by
  intro w hw
  apply idOf_ne_of_idVal_ne
  intro hc
  exact h (hc ▸ List.mem_map_of_mem idVal hw)

/-- C5, counterexample.  On the reachable mirror left by the line
{"event":"workspaces","data":{"03":{},"3":{}}}, which holds two workspaces
with id 3, the line {"event":"workspace-removed","data":{"id":3}} removes one
of them, and the same line applied again removes the other: the second
application is not a no-op. -/
theorem workspaceRemoved_twice_removes_two :
    orderedValue evWorkspacesSameId = true ∧ orderedValue evRemove3 = true ∧
    Reachable printNoDouble (dispatch printNoDouble emptyIPC evWorkspacesSameId).self ∧
    ids (dispatch printNoDouble emptyIPC evWorkspacesSameId).self.workspaces_ = [3, 3] ∧
    ids (dispatch printNoDouble (dispatch printNoDouble emptyIPC evWorkspacesSameId).self
      evRemove3).self.workspaces_ = [3] ∧
    ids (dispatch printNoDouble (dispatch printNoDouble (dispatch printNoDouble emptyIPC
      evWorkspacesSameId).self evRemove3).self evRemove3).self.workspaces_ = [] :=
  ⟨by decide, by decide, Reachable.event emptyIPC evWorkspacesSameId Reachable.init, by decide,
    by decide, by decide⟩

/-- C5, amended.  On a reachable mirror whose workspace ids are pairwise
distinct, with a workspace-removed event whose id converts to the int K:
neither the first nor the second application raises an exception, the second
application leaves the object exactly as the first left it, and when no
workspace has id K the first application leaves the object unchanged too. -/
theorem workspaceRemoved_idempotent (valueToString : Rat → String) (self : IPC)
    (ev payload : Value) (K : Int)
    (hreach : Reachable valueToString self)
    (hdistinct : (ids self.workspaces_).Nodup)
    (hev : IsEvent ev "workspace-removed" payload)
    (hid : idOf payload = .ok K) :
    (dispatch valueToString self ev).thrown = none ∧
    (dispatch valueToString (dispatch valueToString self ev).self ev).thrown = none ∧
    (dispatch valueToString (dispatch valueToString self ev).self ev).self =
      (dispatch valueToString self ev).self ∧
    (K ∉ ids self.workspaces_ → (dispatch valueToString self ev).self = self) := by
  have hwf := (reachable_mirrored valueToString self hreach).1
  have habsent : ∀ s : IPC, WellFormed s.workspaces_ → K ∉ ids s.workspaces_ →
      (dispatch valueToString s ev).thrown = none ∧ (dispatch valueToString s ev).self = s := by
    intro s hs hk
    rw [dispatch_event_thrown valueToString s ev _ payload hev,
      dispatch_event_self valueToString s ev _ payload hev,
      mutate_workspaceRemoved_absent payload s K hs hid (absent_of_not_mem _ K hk)]
    exact ⟨rfl, rfl⟩
  rcases split_at_first_id K self.workspaces_ with habs | ⟨pre, w, post, hsplit, hpre, hw⟩
  · have hk : K ∉ ids self.workspaces_ := by
      intro hc
      obtain ⟨x, hx, hxk⟩ := List.mem_map.1 hc
      exact habs x hx (by rw [idOf_eq_idVal x (hwf x hx), hxk])
    obtain ⟨h1, h2⟩ := habsent self hwf hk
    rw [h2]
    exact ⟨h1, h1, h2, fun _ => rfl⟩
  · have hwf1 := hwf
    rw [hsplit] at hwf1
    obtain ⟨hwpre, _, hwpost⟩ := wellFormed_split pre w post hwf1
    have hfirst : (dispatch valueToString self ev).thrown = none ∧
        (dispatch valueToString self ev).self = { self with workspaces_ := pre ++ post } := by
      rw [dispatch_event_thrown valueToString self ev _ payload hev,
        dispatch_event_self valueToString self ev _ payload hev,
        mutate_workspaceRemoved_present payload self K pre w post hsplit hwpre hpre hw hid]
      exact ⟨rfl, rfl⟩
    have hnd := hdistinct
    rw [hsplit] at hnd
    simp only [ids, List.map_append, List.map_cons] at hnd
    have hk1 : K ∉ ids (pre ++ post) := by
      rw [idVal_of_idOf w K hw] at hnd
      have h3 := List.nodup_append.1 hnd
      have h4 := List.nodup_cons.1 h3.2.1
      intro hc
      simp only [ids, List.map_append, List.mem_append] at hc
      rcases hc with hc | hc
      · exact h3.2.2 hc (List.mem_cons_self _ _)
      · exact h4.1 hc
    obtain ⟨h1, h2⟩ := habsent { self with workspaces_ := pre ++ post }
      (wellFormed_append _ _ hwpre hwpost) hk1
    rw [hfirst.2]
    refine ⟨hfirst.1, h1, h2, ?_⟩
    intro hk
    exact absurd (by rw [hsplit]; simp [ids, idVal_of_idOf w K hw]) hk

/-- C5, witness: the amended statement on the reachable mirror with the
workspaces 3 and 5 and the event with id 3. -/
theorem workspaceRemoved_idempotent_witness :
    Reachable printNoDouble (dispatch printNoDouble emptyIPC evWorkspaces35).self ∧
    (ids (dispatch printNoDouble emptyIPC evWorkspaces35).self.workspaces_).Nodup ∧
    IsEvent evRemove3 "workspace-removed" (objectValue [("id", intValue 3)]) ∧
    idOf (objectValue [("id", intValue 3)]) = .ok 3 ∧
    (dispatch printNoDouble (dispatch printNoDouble (dispatch printNoDouble emptyIPC
      evWorkspaces35).self evRemove3).self evRemove3).self =
      (dispatch printNoDouble (dispatch printNoDouble emptyIPC evWorkspaces35).self
        evRemove3).self :=
  ⟨Reachable.event emptyIPC evWorkspaces35 Reachable.init, by decide,
    isEvent_mkEvent _ _, rfl,
    (workspaceRemoved_idempotent printNoDouble
      (dispatch printNoDouble emptyIPC evWorkspaces35).self evRemove3
      (objectValue [("id", intValue 3)]) 3
      (Reachable.event emptyIPC evWorkspaces35 Reachable.init) (by decide)
      (isEvent_mkEvent _ _) rfl).2.2.1⟩

/-! ## C6: the workspaces event -/

theorem pushWorkspaces_good (payload : Value) (names : List String) (acc : List Value)
    (hp : isObjectOrNull payload = true)
    (hkeys : ∀ key ∈ names, (∃ i, stoi key = .ok i) ∧
      isObjectOrNull (member payload key) = true) :
    pushWorkspaces payload names acc = (acc ++ names.map (workspaceOf payload), none) := by
  induction names generalizing acc with
  | nil => simp [pushWorkspaces]
  | cons key rest ih =>
    obtain ⟨⟨i, hi⟩, ho⟩ := hkeys key (List.mem_cons_self _ _)
    have hr := ih (acc ++ [workspaceOf payload key])
      (fun k hk => hkeys k (List.mem_cons_of_mem _ hk))
    have hk : keyId key = i := by simp [keyId, hi]
    have hc := copyWorkspaceFields_object (member payload key) [("id", intValue i)] ho
    unfold pushWorkspaces
    simp only [get_of_isObjectOrNull payload key hp, hi, hc]
    have hw : workspaceOf payload key =
        withWorkspaceFields (member payload key) (objectValue [("id", intValue i)]) := by
      simp [workspaceOf, hk]
    rw [← hw]
    simpa using hr

theorem hasId_workspaceOf (payload : Value) (key : String) (i : Int) (h : stoi key = .ok i) :
    hasId (workspaceOf payload key) = true := by
  unfold workspaceOf
  rw [hasId_withWorkspaceFields]
  have hk : keyId key = i := by simp [keyId, h]
  rw [hk]
  exact hasId_newEntry i (stoi_range key i h)

theorem get_withWorkspaceFields (src : Value) (ms : List (String × Value)) :
    (withWorkspaceFields src (objectValue ms)).get "output" = .ok (member src "output") ∧
    (withWorkspaceFields src (objectValue ms)).get "windows" = .ok (member src "windows") ∧
    (withWorkspaceFields src (objectValue ms)).get "active_window_idx" =
      .ok (member src "active-window-idx") ∧
    (withWorkspaceFields src (objectValue ms)).get "fullscreen_window_idx" =
      .ok (member src "fullscreen-window-idx") ∧
    (withWorkspaceFields src (objectValue ms)).get "mwfact" = .ok (member src "mwfact") ∧
    (withWorkspaceFields src (objectValue ms)).get "nmaster" = .ok (member src "nmaster") := by
  simp [withWorkspaceFields, setMember, Value.get, find_insertMember_self,
    find_insertMember_ne]

theorem mutate_workspaces_good (payload : Value) (self : IPC) (ms : List (String × Value))
    (hp : payload = objectValue ms)
    (hkeys : ∀ key ∈ ms.map Prod.fst, (∃ i, stoi key = .ok i) ∧
      isObjectOrNull (member payload key) = true) :
    mutate "workspaces" payload self =
      ({ self with workspaces_ :=
          (sortById ((ms.map Prod.fst).map (workspaceOf payload))).1 }, none) := by
  have hobj : isObjectOrNull payload = true := by rw [hp]; rfl
  have hpush := pushWorkspaces_good payload (ms.map Prod.fst) [] hobj hkeys
  have hwf : WellFormed ((ms.map Prod.fst).map (workspaceOf payload)) := by
    intro v hv
    obtain ⟨key, hkey, rfl⟩ := List.mem_map.1 hv
    obtain ⟨⟨i, hi⟩, _⟩ := hkeys key hkey
    exact hasId_workspaceOf payload key i hi
  have hs := sortById_wellFormed _ hwf
  have hn : payload.getMemberNames = .ok (ms.map Prod.fst) := by rw [hp]; rfl
  simp only [mutate, if_true, hn, hpush, List.nil_append]
  rw [hs]

/-- C6, counterexample.  On the reachable mirror that holds the workspaces 3
and 5, the line {"event":"workspaces","data":{"2147483648":{}}}, whose only
key is a decimal integer, makes std::stoi throw std::out_of_range after
workspaces_.clear(): the mirror is left with no workspace at all, not with one
entry for the one payload member. -/
theorem workspaces_key_beyond_int_leaves_empty :
    orderedValue evWorkspaces35 = true ∧ orderedValue evWorkspacesKeyBeyondInt = true ∧
    ids (dispatch printNoDouble emptyIPC evWorkspaces35).self.workspaces_ = [3, 5] ∧
    (dispatch printNoDouble (dispatch printNoDouble emptyIPC evWorkspaces35).self
      evWorkspacesKeyBeyondInt).thrown = some .out_of_range ∧
    (dispatch printNoDouble (dispatch printNoDouble emptyIPC evWorkspaces35).self
      evWorkspacesKeyBeyondInt).self.workspaces_.length = 0 :=
  ⟨by decide, by decide, by decide, by decide, by decide⟩

/-- C6, amended.  For every prior state and every workspaces payload that is an
object whose keys std::stoi converts to an int and whose member values are
objects (or null): the event is applied without an exception, leaves the
windows alone, and the workspace collection becomes a rearrangement of the
entries built from the payload members, one per member and none from the prior
state, ascending by id; the entry of a member has the int of its key as id
and the member's output, windows, active-window-idx, fullscreen-window-idx,
mwfact and nmaster as output, windows, active_window_idx,
fullscreen_window_idx, mwfact and nmaster.  In particular the payload of the
scenario yields the single workspace with id 3, output "DP-1", empty windows
and mwfact 0.5. -/
theorem workspaces_event_replaces (valueToString : Rat → String) (self : IPC)
    (ev payload : Value) (ms : List (String × Value))
    (hev : IsEvent ev "workspaces" payload)
    (hp : payload = objectValue ms)
    (hkeys : ∀ key ∈ ms.map Prod.fst, (∃ i, stoi key = .ok i) ∧
      isObjectOrNull (member payload key) = true) :
    (dispatch valueToString self ev).thrown = none ∧
    (dispatch valueToString self ev).self.windows_ = self.windows_ ∧
    List.Perm (dispatch valueToString self ev).self.workspaces_
      ((ms.map Prod.fst).map (workspaceOf payload)) ∧
    SortedById (dispatch valueToString self ev).self.workspaces_ ∧
    (∀ key ∈ ms.map Prod.fst, ∀ i, stoi key = .ok i →
      idOf (workspaceOf payload key) = .ok i ∧
      HasWorkspaceFields (workspaceOf payload key) (member payload key)) ∧
    (dispatch printNoDouble emptyIPC evWorkspaces3).self.workspaces_ =
      [objectValue [("active_window_idx", nullValue), ("fullscreen_window_idx", nullValue),
        ("id", intValue 3), ("mwfact", realValue (1 / 2)), ("nmaster", intValue 1),
        ("output", stringValue "DP-1"), ("windows", arrayValue [])]] := by
  have hwf : WellFormed ((ms.map Prod.fst).map (workspaceOf payload)) := by
    intro v hv
    obtain ⟨key, hkey, rfl⟩ := List.mem_map.1 hv
    obtain ⟨⟨i, hi⟩, _⟩ := hkeys key hkey
    exact hasId_workspaceOf payload key i hi
  rw [dispatch_event_thrown valueToString self ev _ payload hev,
    dispatch_event_self valueToString self ev _ payload hev,
    mutate_workspaces_good payload self ms hp hkeys]
  refine ⟨rfl, rfl, sortById_perm _, sortById_sorted _ hwf, ?_, rfl⟩
  intro key _ i hi
  have hk : keyId key = i := by simp [keyId, hi]
  refine ⟨?_, get_withWorkspaceFields _ _⟩
  unfold workspaceOf
  rw [idOf_withWorkspaceFields, hk]
  exact idOf_newEntry i (stoi_range key i hi)

/-- C6, witness: the amended statement at the payload of the scenario, applied
to the mirror that holds the workspaces 3 and 5. -/
theorem workspaces_event_replaces_witness :
    IsEvent evWorkspaces3 "workspaces" (objectValue [("3", objectValue [
      ("active-window-idx", nullValue), ("fullscreen-window-idx", nullValue),
      ("mwfact", realValue (1 / 2)), ("nmaster", intValue 1),
      ("output", stringValue "DP-1"), ("windows", arrayValue [])])]) ∧
    stoi "3" = .ok 3 ∧
    (dispatch printNoDouble (dispatch printNoDouble emptyIPC evWorkspaces35).self
      evWorkspaces3).thrown = none ∧
    SortedById (dispatch printNoDouble (dispatch printNoDouble emptyIPC evWorkspaces35).self
      evWorkspaces3).self.workspaces_ :=
  ⟨isEvent_mkEvent _ _, rfl,
    (workspaces_event_replaces printNoDouble (dispatch printNoDouble emptyIPC evWorkspaces35).self
      evWorkspaces3 _ _ (isEvent_mkEvent _ _) rfl
      (by
        intro key hkey
        simp only [List.map_cons, List.map_nil, List.mem_singleton] at hkey
        subst hkey
        exact ⟨⟨3, rfl⟩, rfl⟩)).1,
    (workspaces_event_replaces printNoDouble (dispatch printNoDouble emptyIPC evWorkspaces35).self
      evWorkspaces3 _ _ (isEvent_mkEvent _ _) rfl
      (by
        intro key hkey
        simp only [List.map_cons, List.map_nil, List.mem_singleton] at hkey
        subst hkey
        exact ⟨⟨3, rfl⟩, rfl⟩)).2.2.2.1⟩

/-! ## C7: workspace-changed -/

theorem orderedInsert_le_head (a : Int × Value) (l : List (Int × Value))
    (h : ∀ b ∈ l.head?, a.1 ≤ b.1) :
    List.orderedInsert (fun a b : Int × Value => a.1 ≤ b.1) a l = a :: l := by
  cases l with
  | nil => rfl
  | cons b rest =>
    have hb : a.1 ≤ b.1 := h b (by simp)
    simp [List.orderedInsert, hb]

theorem insertionSort_append_singleton (l : List (Int × Value)) (x : Int × Value)
    (hs : List.Sorted (fun a b : Int × Value => a.1 ≤ b.1) l) :
    ∃ pre post, l = pre ++ post ∧
      List.insertionSort (fun a b : Int × Value => a.1 ≤ b.1) (l ++ [x]) = pre ++ x :: post ∧
      (∀ p ∈ pre, p.1 ≤ x.1) ∧ (∀ q ∈ post, x.1 < q.1) := by
  induction l with
  | nil => exact ⟨[], [], rfl, rfl, by simp, by simp⟩
  | cons a rest ih =>
    have hrest : ∀ b ∈ rest, a.1 ≤ b.1 := fun b hb => List.rel_of_sorted_cons hs b hb
    obtain ⟨pre, post, hl, hsort, hpre, hpost⟩ := ih hs.of_cons
    have hstep : List.insertionSort (fun a b : Int × Value => a.1 ≤ b.1) (a :: rest ++ [x]) =
        List.orderedInsert (fun a b : Int × Value => a.1 ≤ b.1) a (pre ++ x :: post) := by
      rw [← hsort]; rfl
    rw [hstep]
    by_cases hax : a.1 ≤ x.1
    · refine ⟨a :: pre, post, by rw [hl]; rfl, ?_, ?_, hpost⟩
      · apply orderedInsert_le_head
        intro b hb
        cases pre with
        | nil =>
          simp only [List.nil_append, List.head?_cons, Option.mem_def, Option.some.injEq] at hb
          subst hb; exact hax
        | cons p pre1 =>
          simp only [List.cons_append, List.head?_cons, Option.mem_def,
            Option.some.injEq] at hb
          subst hb
          exact hrest p (by rw [hl]; simp)
      · intro p hp
        simp only [List.mem_cons] at hp
        rcases hp with rfl | hp
        · exact hax
        · exact hpre p hp
    · have hxa : x.1 < a.1 := lt_of_not_le hax
      have hpre_nil : pre = [] := by
        cases pre with
        | nil => rfl
        | cons p pre1 =>
          exfalso
          have h1 := hpre p (List.mem_cons_self _ _)
          have h2 := hrest p (by rw [hl]; simp)
          omega
      subst hpre_nil
      simp only [List.nil_append] at hl
      subst hl
      refine ⟨[], a :: rest, rfl, ?_, by simp, ?_⟩
      · simp only [List.nil_append, List.orderedInsert, hax, if_false]
        congr 1
        apply orderedInsert_le_head
        intro b hb
        exact hrest b (List.mem_of_mem_head? hb)
      · intro q hq
        simp only [List.mem_cons] at hq
        rcases hq with rfl | hq
        · exact hxa
        · have := hrest q hq
          omega

theorem sorted_keys_of_sortedById (ws : List Value) (hwf : WellFormed ws)
    (hs : SortedById ws) :
    List.Sorted (fun a b : Int × Value => a.1 ≤ b.1) (ws.map (fun w => (idVal w, w))) := by
  have hchain : List.Chain' (fun a b : Int × Value => a.1 ≤ b.1)
      (ws.map (fun w => (idVal w, w))) := by
    induction ws with
    | nil => exact List.chain'_nil
    | cons a rest ih =>
      cases rest with
      | nil => exact List.chain'_singleton _
      | cons b rest =>
        have ha := idOf_eq_idVal a (hwf a (List.mem_cons_self _ _))
        have hb := idOf_eq_idVal b (hwf b (List.mem_cons_of_mem _ (List.mem_cons_self _ _)))
        unfold SortedById at hs
        simp only [isSortedById, idLe, ha, hb, Bool.and_eq_true, decide_eq_true_eq] at hs
        have hr := ih (fun x hx => hwf x (List.mem_cons_of_mem _ hx)) hs.2
        simp only [List.map_cons] at hr ⊢
        exact List.Chain'.cons hs.1 hr
  exact List.chain'_iff_pairwise.1 hchain

theorem sortById_append_singleton (ws : List Value) (new : Value) (hwf : WellFormed ws)
    (hnew : hasId new = true) (hs : SortedById ws) :
    ∃ pre post, ws = pre ++ post ∧ (sortById (ws ++ [new])).1 = pre ++ new :: post := by
  have hall : WellFormed (ws ++ [new]) :=
    wellFormed_append _ _ hwf (wellFormed_singleton new hnew)
  obtain ⟨pre, post, hl, hsort, _, _⟩ :=
    insertionSort_append_singleton (ws.map (fun w => (idVal w, w))) (idVal new, new)
      (sorted_keys_of_sortedById ws hwf hs)
  refine ⟨pre.map Prod.snd, post.map Prod.snd, ?_, ?_⟩
  · have := congrArg (List.map Prod.snd) hl
    simpa [List.map_map, Function.comp_def] using this
  · rw [sortById_wellFormed _ hall]
    simp only [List.map_append, List.map_cons, List.map_nil]
    rw [hsort]
    simp

theorem ids_append (xs ys : List Value) : ids (xs ++ ys) = ids xs ++ ids ys := by
  simp [ids]

theorem ids_perm (xs ys : List Value) (h : List.Perm xs ys) : List.Perm (ids xs) (ids ys) :=
  h.map idVal

theorem not_mem_ids_of_absent (ws : List Value) (K : Int) (hwf : WellFormed ws)
    (habs : ∀ w ∈ ws, idOf w ≠ .ok K) : K ∉ ids ws := by
  intro hc
  obtain ⟨x, hx, hxk⟩ := List.mem_map.1 hc
  exact habs x hx (by rw [idOf_eq_idVal x (hwf x hx), hxk])

theorem nodup_ids_append_new (ws : List Value) (new : Value) (K : Int)
    (h : (ids ws).Nodup) (hk : K ∉ ids ws) (hnew : idVal new = K) :
    (ids (ws ++ [new])).Nodup := by
  rw [ids_append]
  refine List.nodup_append.2 ⟨h, by simp [ids], ?_⟩
  intro a ha hb
  simp only [ids, List.map_cons, List.map_nil, List.mem_singleton] at hb
  rw [hb, hnew] at ha
  exact hk ha

theorem map_eq_of_injOn (f : Value → Int) (l1 l2 : List Value)
    (hinj : ∀ a ∈ l1, ∀ b ∈ l2, f a = f b → a = b) (h : l1.map f = l2.map f) : l1 = l2 := by
  induction l1 generalizing l2 with
  | nil =>
    cases l2 with
    | nil => rfl
    | cons b rest => simp at h
  | cons a rest ih =>
    cases l2 with
    | nil => simp at h
    | cons b rest2 =>
      simp only [List.map_cons, List.cons.injEq] at h
      have hab : a = b := hinj a (List.mem_cons_self _ _) b (List.mem_cons_self _ _) h.1
      have hr := ih rest2
        (fun x hx y hy => hinj x (List.mem_cons_of_mem _ hx) y (List.mem_cons_of_mem _ hy)) h.2
      rw [hab, hr]

theorem sorted_ids_of_sortedById (ws : List Value) (hwf : WellFormed ws)
    (hs : SortedById ws) : List.Sorted (fun a b : Int => a ≤ b) (ids ws) := by
  have h := sorted_keys_of_sortedById ws hwf hs
  have h1 := List.pairwise_map.1 h
  exact List.pairwise_map.2 h1

/-- The arrangement std::sort may return is determined when the ids are
pairwise different: two arrangements of the same entries that are both
ascending by id are equal.  So with distinct ids the result of sortById is the
result of every std::sort. -/
theorem sorted_arrangement_unique (xs out1 out2 : List Value) (hwf : WellFormed xs)
    (hd : (ids xs).Nodup) (h1 : List.Perm out1 xs) (h2 : List.Perm out2 xs)
    (s1 : SortedById out1) (s2 : SortedById out2) : out1 = out2 := by
  have w1 : WellFormed out1 := wellFormed_perm _ _ h1 hwf
  have w2 : WellFormed out2 := wellFormed_perm _ _ h2 hwf
  have hp : List.Perm (ids out1) (ids out2) := (ids_perm _ _ h1).trans (ids_perm _ _ h2).symm
  have he : ids out1 = ids out2 :=
    List.eq_of_perm_of_sorted hp (sorted_ids_of_sortedById out1 w1 s1)
      (sorted_ids_of_sortedById out2 w2 s2)
  have nd1 : (List.map idVal out1).Nodup := (ids_perm _ _ h1).nodup_iff.2 hd
  apply map_eq_of_injOn idVal out1 out2 _ he
  intro a ha b hb hab
  exact List.inj_on_of_nodup_map nd1 ha ((h2.trans h1.symm).subset hb) hab

theorem mem_ids_of_idOf (ws : List Value) (w : Value) (K : Int) (hw : w ∈ ws)
    (h : idOf w = .ok K) : K ∈ ids ws := by
  have := List.mem_map_of_mem idVal hw
  rwa [idVal_of_idOf w K h] at this

/-- C7, counterexample.  On the sorted mirror that holds the workspaces 3 and
5, the line {"event":"workspace-changed","data":{"id":2147483648}} carries an
integer id that no workspace has; asInt throws Json::LogicError on it and the
collection is left as it was, with two workspaces, not three. -/
theorem workspaceChanged_beyond_int_adds_nothing :
    orderedValue evWorkspaces35 = true ∧ orderedValue evChangeBeyondInt = true ∧
    SortedById (dispatch printNoDouble emptyIPC evWorkspaces35).self.workspaces_ ∧
    ids (dispatch printNoDouble emptyIPC evWorkspaces35).self.workspaces_ = [3, 5] ∧
    (dispatch printNoDouble (dispatch printNoDouble emptyIPC evWorkspaces35).self
      evChangeBeyondInt).thrown = some .logic_error ∧
    ids (dispatch printNoDouble (dispatch printNoDouble emptyIPC evWorkspaces35).self
      evChangeBeyondInt).self.workspaces_ = [3, 5] :=
  ⟨by decide, by decide, by decide, by decide, by decide, by decide⟩

/-- C7, amended.  On every mirror whose workspaces are entries sorted ascending
by id with pairwise distinct ids, with a workspace-changed payload whose id
converts to the int K, the event is applied without an exception and leaves
the windows alone.  If a workspace has id K, it is the only one; it is replaced
in place by an entry with the same id whose output, windows,
active_window_idx, fullscreen_window_idx, mwfact and nmaster are the payload's
fields, and every other workspace stays as it was, so the number of workspaces
is the same.  If none has id K, one entry with id K and those six fields is
added and all previous workspaces stay as they were, in their order; and this
result is the only arrangement of the old workspaces and the new entry that is
ascending by id, so it is what std::sort returns whatever it does with equal
keys. -/
theorem workspaceChanged_upserts (valueToString : Rat → String) (self : IPC)
    (ev payload : Value) (K : Int)
    (hwf : WellFormed self.workspaces_)
    (hsorted : SortedById self.workspaces_)
    (hdistinct : (ids self.workspaces_).Nodup)
    (hev : IsEvent ev "workspace-changed" payload)
    (hid : idOf payload = .ok K) :
    (dispatch valueToString self ev).thrown = none ∧
    (dispatch valueToString self ev).self.windows_ = self.windows_ ∧
    (K ∈ ids self.workspaces_ →
      ∃ pre w w1 post, self.workspaces_ = pre ++ w :: post ∧
        (dispatch valueToString self ev).self.workspaces_ = pre ++ w1 :: post ∧
        (∀ p ∈ pre, idVal p ≠ K) ∧ (∀ p ∈ post, idVal p ≠ K) ∧
        idOf w = .ok K ∧ idOf w1 = .ok K ∧ HasWorkspaceFields w1 payload) ∧
    (K ∉ ids self.workspaces_ →
      ∃ pre new post, self.workspaces_ = pre ++ post ∧
        (dispatch valueToString self ev).self.workspaces_ = pre ++ new :: post ∧
        idOf new = .ok K ∧ HasWorkspaceFields new payload ∧
        ∀ out, List.Perm out (self.workspaces_ ++ [new]) → SortedById out →
          out = pre ++ new :: post) := by
  rw [dispatch_event_thrown valueToString self ev _ payload hev,
    dispatch_event_self valueToString self ev _ payload hev]
  rcases split_at_first_id K self.workspaces_ with habs | ⟨pre, w, post, hsplit, hpre, hw⟩
  · rw [mutate_workspaceChanged_absent payload self K hwf hid habs]
    have hk : K ∉ ids self.workspaces_ := not_mem_ids_of_absent _ K hwf habs
    refine ⟨rfl, rfl, fun hc => absurd hc hk, fun _ => ?_⟩
    have hnew : hasId (withWorkspaceFields payload (objectValue [("id", intValue K)])) = true := by
      rw [hasId_withWorkspaceFields]; exact hasId_newEntry K (idOf_range payload K hid)
    have hidnew : idOf (withWorkspaceFields payload (objectValue [("id", intValue K)])) =
        .ok K := by
      rw [idOf_withWorkspaceFields]
      exact idOf_newEntry K (idOf_range payload K hid)
    have hall : WellFormed (self.workspaces_ ++
        [withWorkspaceFields payload (objectValue [("id", intValue K)])]) :=
      wellFormed_append _ _ hwf (wellFormed_singleton _ hnew)
    obtain ⟨pre, post, hl, hs⟩ := sortById_append_singleton self.workspaces_ _ hwf hnew hsorted
    refine ⟨pre, _, post, hl, hs, hidnew, get_withWorkspaceFields _ _, ?_⟩
    intro out hperm hsout
    rw [← hs]
    exact sorted_arrangement_unique _ out _ hall
      (nodup_ids_append_new _ _ K hdistinct hk (idVal_of_idOf _ K hidnew))
      hperm (sortById_perm _) hsout (sortById_sorted _ hall)
  · have hwf1 := hwf
    rw [hsplit] at hwf1
    obtain ⟨hwpre, hwe, hwpost⟩ := wellFormed_split pre w post hwf1
    rw [mutate_workspaceChanged_present payload self K pre w post hsplit hwpre hpre hw hwe hid]
    have hk : K ∈ ids self.workspaces_ :=
      mem_ids_of_idOf _ w K (by rw [hsplit]; simp) hw
    refine ⟨rfl, rfl, fun _ => ?_, fun hc => absurd hk hc⟩
    obtain ⟨ms, rfl⟩ := hasId_isObject w hwe
    refine ⟨pre, _, _, post, hsplit, rfl, ?_, ?_, hw, ?_, get_withWorkspaceFields _ _⟩
    · intro p hp hc
      exact hpre p hp (by rw [idOf_eq_idVal p (hwpre p hp), hc])
    · intro p hp hc
      have hnd := hdistinct
      rw [hsplit, ids_append] at hnd
      have h2 := (List.nodup_append.1 hnd).2.1
      simp only [ids, List.map_cons] at h2
      have h3 := (List.nodup_cons.1 h2).1
      apply h3
      rw [idVal_of_idOf _ K hw, ← hc]
      exact List.mem_map_of_mem idVal hp
    · rw [idOf_withWorkspaceFields]; exact hw

/-- C7, witness: the amended statement on the mirror with the workspaces 3 and
5 and the event with id 4, which adds workspace 4 between them. -/
theorem workspaceChanged_upserts_witness :
    WellFormed (dispatch printNoDouble emptyIPC evWorkspaces35).self.workspaces_ ∧
    SortedById (dispatch printNoDouble emptyIPC evWorkspaces35).self.workspaces_ ∧
    (ids (dispatch printNoDouble emptyIPC evWorkspaces35).self.workspaces_).Nodup ∧
    IsEvent evChange4 "workspace-changed"
      (objectValue [("id", intValue 4), ("output", stringValue "DP-2")]) ∧
    idOf (objectValue [("id", intValue 4), ("output", stringValue "DP-2")]) = .ok 4 ∧
    (dispatch printNoDouble (dispatch printNoDouble emptyIPC evWorkspaces35).self
      evChange4).thrown = none ∧
    ids (dispatch printNoDouble (dispatch printNoDouble emptyIPC evWorkspaces35).self
      evChange4).self.workspaces_ = [3, 4, 5] :=
  ⟨by decide, by decide, by decide, isEvent_mkEvent _ _, rfl,
    (workspaceChanged_upserts printNoDouble (dispatch printNoDouble emptyIPC evWorkspaces35).self
      evChange4 (objectValue [("id", intValue 4), ("output", stringValue "DP-2")]) 4
      (by decide) (by decide) (by decide) (isEvent_mkEvent _ _) rfl).1,
    by decide⟩

/-! ## The order of the workspaces on the paths that do not throw -/

theorem isSortedById_congr (ws ws1 : List Value) (h : ws.map idOf = ws1.map idOf) :
    isSortedById ws = isSortedById ws1 := by
  induction ws generalizing ws1 with
  | nil =>
    cases ws1 with
    | nil => rfl
    | cons b rest => simp at h
  | cons a rest ih =>
    cases ws1 with
    | nil => simp at h
    | cons a1 rest1 =>
      simp only [List.map_cons, List.cons.injEq] at h
      cases rest with
      | nil =>
        cases rest1 with
        | nil => rfl
        | cons b1 r1 => simp at h
      | cons b r =>
        cases rest1 with
        | nil => simp at h
        | cons b1 r1 =>
          have hr := ih (b1 :: r1) h.2
          have hb : idOf b = idOf b1 := by
            have := h.2
            simp only [List.map_cons, List.cons.injEq] at this
            exact this.1
          simp only [isSortedById, idLe, h.1, hb, hr]

theorem sortedById_sublist (ws ws1 : List Value) (hwf : WellFormed ws) (hs : SortedById ws)
    (hsub : List.Sublist ws1 ws) : SortedById ws1 := by
  have h1 := sorted_keys_of_sortedById ws hwf hs
  have h2 : List.Sorted (fun a b : Int × Value => a.1 ≤ b.1)
      (ws1.map (fun w => (idVal w, w))) := h1.sublist (hsub.map _)
  have h3 := isSortedById_of_sorted (ws1.map (fun w => (idVal w, w)))
    (by
      intro x hx
      obtain ⟨w, hw, rfl⟩ := List.mem_map.1 hx
      exact idOf_eq_idVal w (hwf w (hsub.subset hw))) h2
  simpa [SortedById, List.map_map, Function.comp_def] using h3

theorem mutate_workspaces_unchanged (name : String) (payload : Value) (self : IPC)
    (h1 : name ≠ "workspaces") (h2 : name ≠ "active-workspace-changed")
    (h3 : name ≠ "workspace-changed") (h4 : name ≠ "workspace-removed") :
    (mutate name payload self).1.workspaces_ = self.workspaces_ := by
  unfold mutate
  simp only [h1, h2, h3, h4, if_false]
  repeat' split
  all_goals rfl

theorem mutate_sorted (name : String) (payload : Value) (self : IPC)
    (hm : Mirrored self) (hs : SortedById self.workspaces_)
    (hok : (mutate name payload self).2 = none) :
    SortedById (mutate name payload self).1.workspaces_ := by
  by_cases h1 : name = "workspaces"
  · subst h1
    cases hn : payload.getMemberNames with
    | error e => simp [mutate, hn] at hok
    | ok names =>
      have hp := pushWorkspaces_wellFormed payload names [] (by intro v hv; simp at hv)
      cases hc : pushWorkspaces payload names [] with
      | mk ws e =>
        rw [hc] at hp
        cases e with
        | some e => simp [mutate, hn, hc] at hok
        | none =>
          simp only [mutate, if_true, hn, hc]
          exact sortById_sorted ws hp
  by_cases h2 : name = "active-workspace-changed"
  · subst h2
    cases hid : idOf payload with
    | error e => simp [mutate, hid] at hok
    | ok id =>
      rw [mutate_activeWorkspaceChanged payload self id hm.1 hid]
      unfold SortedById at hs ⊢
      rw [← hs]
      apply isSortedById_congr
      simp [List.map_map, Function.comp_def, idOf_markActive]
  by_cases h3 : name = "workspace-changed"
  · subst h3
    cases hid : idOf payload with
    | error e => simp [mutate, hid] at hok
    | ok id =>
      rcases split_at_first_id id self.workspaces_ with habs | ⟨pre, w, post, hsplit, hpre, hw⟩
      · rw [mutate_workspaceChanged_absent payload self id hm.1 hid habs]
        apply sortById_sorted
        refine wellFormed_append _ _ hm.1 (wellFormed_singleton _ ?_)
        rw [hasId_withWorkspaceFields]; exact hasId_newEntry id (idOf_range payload id hid)
      · have hw1 := hm.1
        rw [hsplit] at hw1
        obtain ⟨hwpre, hwe, _⟩ := wellFormed_split pre w post hw1
        rw [mutate_workspaceChanged_present payload self id pre w post hsplit hwpre hpre hw hwe
          hid]
        unfold SortedById at hs ⊢
        rw [← hs, hsplit]
        apply isSortedById_congr
        simp [idOf_withWorkspaceFields]
  by_cases h4 : name = "workspace-removed"
  · subst h4
    cases hid : idOf payload with
    | error e => simp [mutate, hid] at hok
    | ok id =>
      rcases split_at_first_id id self.workspaces_ with habs | ⟨pre, w, post, hsplit, hpre, hw⟩
      · rw [mutate_workspaceRemoved_absent payload self id hm.1 hid habs]; exact hs
      · have hw1 := hm.1
        rw [hsplit] at hw1
        obtain ⟨hwpre, _, _⟩ := wellFormed_split pre w post hw1
        rw [mutate_workspaceRemoved_present payload self id pre w post hsplit hwpre hpre hw hid]
        apply sortedById_sublist self.workspaces_ _ hm.1 hs
        rw [hsplit]
        exact List.Sublist.append (List.Sublist.refl pre) (List.sublist_cons_self w post)
  rw [mutate_workspaces_unchanged name payload self h1 h2 h3 h4]
  exact hs

/-- Every event that parseIPC applies without an exception keeps a sorted
workspace collection sorted; the order can only be lost on a path that throws. -/
theorem sorted_after_event (valueToString : Rat → String) (self : IPC) (ev : Value)
    (hm : Mirrored self) (hs : SortedById self.workspaces_)
    (hok : (dispatch valueToString self ev).thrown = none) :
    SortedById (dispatch valueToString self ev).self.workspaces_ := by
  rcases dispatch_cases valueToString self ev with ⟨h, _⟩ | ⟨n, p, _, _, h, ht⟩
  · rw [h]; exact hs
  · rw [h]
    rw [ht] at hok
    exact mutate_sorted n p self hm hs hok

/-! ## C8: lines that are rejected -/

theorem mutate_callbacks (name : String) (payload : Value) (self : IPC) :
    (mutate name payload self).1.callbacks_ = self.callbacks_ := by
  unfold mutate
  repeat' split
  all_goals rfl

theorem notify_eq_filter_map (self : IPC) (eventName : String) (ev : Value)
    (cbs : List (String × EventHandlerPtr)) :
    notify self eventName ev cbs =
      (cbs.filter (fun c => decide (c.1 = eventName))).map
        (fun c => { handler := c.2, ev := ev, workspaces := self.workspaces_,
                    windows := self.windows_ }) := by
  induction cbs with
  | nil => rfl
  | cons c rest ih =>
    obtain ⟨n, h⟩ := c
    by_cases hn : n = eventName
    · simp [notify, hn, ih, List.filter_cons]
    · simp [notify, hn, ih, List.filter_cons]

/-- C9.  When the line parses to the event named N with its data member, and
parseIPC applies it without an exception, then the onEvent calls are, in the
order of the registry, one call for each entry whose registered name is N and
none for the others; each call goes to the handler of its entry, passes the
whole parsed document, and is made on the mirror as the mutation of this event
left it.  The registry itself is as before the event. -/
theorem notify_matching_in_order (parser_ : String → Except Exc Value)
    (valueToString : Rat → String) (self : IPC) (line : String) (ev : Value)
    (N : String) (payload : Value)
    (hparse : parser_ line = .ok ev)
    (hev : IsEvent ev N payload)
    (hok : (parseIPC parser_ valueToString self line).thrown = none) :
    (parseIPC parser_ valueToString self line).self = (mutate N payload self).1 ∧
    (parseIPC parser_ valueToString self line).self.callbacks_ = self.callbacks_ ∧
    (parseIPC parser_ valueToString self line).calls =
      (self.callbacks_.filter (fun c => decide (c.1 = N))).map
        (fun c => { handler := c.2, ev := ev,
                    workspaces := (mutate N payload self).1.workspaces_,
                    windows := (mutate N payload self).1.windows_ }) := by
  have hd : parseIPC parser_ valueToString self line = dispatch valueToString self ev := by
    simp [parseIPC, hparse]
  rw [hd] at hok ⊢
  rw [dispatch_event valueToString self ev N payload hev] at hok ⊢
  cases hm : mutate N payload self with
  | mk s1 e =>
    have hcb : s1.callbacks_ = self.callbacks_ := by
      have := mutate_callbacks N payload self
      rwa [hm] at this
    cases e with
    | some e => simp [hm] at hok
    | none =>
      refine ⟨rfl, hcb, ?_⟩
      show notify s1 N ev s1.callbacks_ = _
      rw [notify_eq_filter_map, hcb]

/-- C9, witness: on the mirror with handler 1 registered for workspaces and
handler 2 for windows, the workspaces event of the scenario calls handler 1
once and handler 2 not at all, on the mirror that holds workspace 3 only. -/
theorem notify_matching_in_order_witness :
    parsesTo evWorkspaces3 "" = .ok evWorkspaces3 ∧
    (parseIPC (parsesTo evWorkspaces3) printNoDouble ipcWithSubscribers "").thrown = none ∧
    (parseIPC (parsesTo evWorkspaces3) printNoDouble ipcWithSubscribers "").calls.map
      (fun c => (c.handler, ids c.workspaces)) = [(some 1, [3])] :=
  ⟨rfl, by decide, by
    rw [(notify_matching_in_order (parsesTo evWorkspaces3) printNoDouble ipcWithSubscribers ""
      evWorkspaces3 "workspaces" _ rfl (isEvent_mkEvent _ _) (by decide)).2.2]
    decide⟩

/-! ## C10: the registry -/

theorem eraseHandler_eq_filter (h : EventHandlerPtr) (cbs : List (String × EventHandlerPtr)) :
    eraseHandler h cbs = cbs.filter (fun c => decide (c.2 ≠ h)) := by
  induction cbs with
  | nil => rfl
  | cons c rest ih =>
    obtain ⟨n, h1⟩ := c
    by_cases hh : h1 = h
    · simp [eraseHandler, hh, ih, List.filter_cons]
    · simp [eraseHandler, hh, ih, List.filter_cons]

/-- C10.  For every registry content and every non-null subscriber h:
unregisterForIPC(h) leaves exactly the entries of the other subscribers, in
their original order, so no entry refers to h any more, and does not touch the
mirror; registerForIPC(name, h) appends the one entry (name, h) at the end and
changes nothing else; and with a null subscriber both leave the object as it
is. -/
theorem registry_operations (self : IPC) (name : String) (h : Nat) :
    (unregisterForIPC self (some h)).callbacks_ =
      self.callbacks_.filter (fun c => decide (c.2 ≠ some h)) ∧
    (∀ c ∈ (unregisterForIPC self (some h)).callbacks_, c.2 ≠ some h) ∧
    (unregisterForIPC self (some h)).workspaces_ = self.workspaces_ ∧
    (unregisterForIPC self (some h)).windows_ = self.windows_ ∧
    (registerForIPC self name (some h)).callbacks_ = self.callbacks_ ++ [(name, some h)] ∧
    (registerForIPC self name (some h)).workspaces_ = self.workspaces_ ∧
    (registerForIPC self name (some h)).windows_ = self.windows_ ∧
    unregisterForIPC self none = self ∧
    registerForIPC self name none = self := by
  refine ⟨eraseHandler_eq_filter _ _, ?_, rfl, rfl, rfl, rfl, rfl, rfl, rfl⟩
  intro c hc
  have hc1 : c ∈ self.callbacks_.filter (fun c => decide (c.2 ≠ some h)) := by
    rw [← eraseHandler_eq_filter]; exact hc
  simpa using (List.mem_filter.1 hc1).2

/-! ## C11: what an event that throws leaves in the mirror -/

/-- On a mirror of entries, an event other than workspaces and windows that
throws leaves the object exactly as it was: only the two events that rebuild a
collection can leave a part of themselves behind. -/
theorem mutate_throw_unchanged (name : String) (payload : Value) (self : IPC) (e : Exc)
    (hm : Mirrored self) (hn1 : name ≠ "workspaces") (hn2 : name ≠ "windows")
    (ht : (mutate name payload self).2 = some e) :
    (mutate name payload self).1 = self := by
  by_cases h2 : name = "active-workspace-changed"
  · subst h2
    cases hid : idOf payload with
    | error e1 => simp [mutate, hid]
    | ok id => rw [mutate_activeWorkspaceChanged payload self id hm.1 hid] at ht; simp at ht
  by_cases h3 : name = "workspace-changed"
  · subst h3
    cases hid : idOf payload with
    | error e1 => simp [mutate, hid]
    | ok id =>
      rcases split_at_first_id id self.workspaces_ with habs | ⟨pre, w, post, hsplit, hpre, hw⟩
      · rw [mutate_workspaceChanged_absent payload self id hm.1 hid habs] at ht; simp at ht
      · have hw1 := hm.1
        rw [hsplit] at hw1
        obtain ⟨hwpre, hwe, _⟩ := wellFormed_split pre w post hw1
        rw [mutate_workspaceChanged_present payload self id pre w post hsplit hwpre hpre hw hwe
          hid] at ht
        simp at ht
  by_cases h4 : name = "workspace-removed"
  · subst h4
    cases hid : idOf payload with
    | error e1 => simp [mutate, hid]
    | ok id =>
      rcases split_at_first_id id self.workspaces_ with habs | ⟨pre, w, post, hsplit, hpre, hw⟩
      · rw [mutate_workspaceRemoved_absent payload self id hm.1 hid habs]
      · have hw1 := hm.1
        rw [hsplit] at hw1
        obtain ⟨hwpre, _, _⟩ := wellFormed_split pre w post hw1
        rw [mutate_workspaceRemoved_present payload self id pre w post hsplit hwpre hpre hw
          hid] at ht
        simp at ht
  by_cases h6 : name = "window-changed"
  · subst h6
    cases hid : idOf payload with
    | error e1 => simp [mutate, hid]
    | ok id =>
      rcases split_at_first_id id self.windows_ with habs | ⟨pre, w, post, hsplit, hpre, hw⟩
      · rw [mutate_windowChanged_absent payload self id hm.2 hid habs] at ht; simp at ht
      · have hw1 := hm.2
        rw [hsplit] at hw1
        obtain ⟨hwpre, hwe, _⟩ := wellFormed_split pre w post hw1
        rw [mutate_windowChanged_present payload self id pre w post hsplit hwpre hpre hw hwe
          hid] at ht
        simp at ht
  by_cases h7 : name = "window-closed"
  · subst h7
    cases hid : idOf payload with
    | error e1 => simp [mutate, hid]
    | ok id =>
      rcases split_at_first_id id self.windows_ with habs | ⟨pre, w, post, hsplit, hpre, hw⟩
      · rw [mutate_windowClosed_absent payload self id hm.2 hid habs]
      · have hw1 := hm.2
        rw [hsplit] at hw1
        obtain ⟨hwpre, _, _⟩ := wellFormed_split pre w post hw1
        rw [mutate_windowClosed_present payload self id pre w post hsplit hwpre hpre hw
          hid] at ht
        simp at ht
  by_cases h8 : name = "window-focused"
  · subst h8
    cases hid : payload.get "id" with
    | error e1 => simp [mutate, hid]
    | ok idv =>
      cases hn : idv.isNull with
      | true =>
        have hnull := isNull_eq_true idv hn
        subst hnull
        rw [mutate_windowFocused_null payload self hm.2 hid] at ht; simp at ht
      | false =>
        cases hk : idv.asInt with
        | ok k =>
          rw [mutate_windowFocused_id payload self idv k hm.2 hid hn hk] at ht; simp at ht
        | error e1 =>
          cases hws : self.windows_ with
          | nil => simp [mutate, hid, hn, hws, forEach] at ht
          | cons w rest =>
            have hw : hasId w = true := hm.2 w (by rw [hws]; exact List.mem_cons_self _ _)
            have hth := forEach_throw_head (setFocusedById idv) w rest e1
              (setFocusedById_throw idv e1 w hw hk)
            cases self with
            | mk ws wins cbs =>
              simp only at hws
              subst hws
              simp [mutate, hid, hn, hth]
  simp [mutate, hn1, hn2, h2, h3, h4, h6, h7, h8]

/-- A line that makes parseIPC throw leaves the object exactly as it was,
unless its event name is workspaces or windows. -/
theorem parseIPC_throw_unchanged (parser_ : String → Except Exc Value)
    (valueToString : Rat → String) (self : IPC) (line : String) (e : Exc)
    (hm : Mirrored self)
    (hname : ∀ ev name, parser_ line = .ok ev →
      (ev.get "event" >>= asString valueToString) = .ok name →
      name ≠ "workspaces" ∧ name ≠ "windows")
    (ht : (parseIPC parser_ valueToString self line).thrown = some e) :
    (parseIPC parser_ valueToString self line).self = self := by
  cases hp : parser_ line with
  | error e1 => simp [parseIPC, hp]
  | ok ev =>
    have hd : parseIPC parser_ valueToString self line = dispatch valueToString self ev := by
      simp [parseIPC, hp]
    rw [hd] at ht ⊢
    rcases dispatch_cases valueToString self ev with ⟨h, _⟩ | ⟨n, p, hn, _, h, hth⟩
    · exact h
    · rw [h]
      rw [hth] at ht
      obtain ⟨h1, h2⟩ := hname ev n hp hn
      exact mutate_throw_unchanged n p self e hm h1 h2 ht

/-- C11, at the failing input.  The object holds the workspaces 3 and 5 and a
subscriber for workspaces.  The line
{"event":"workspaces","data":{"10":{},"9":{},"x":{}}} has three members; parseIPC
clears the collection, pushes the workspaces 10 and 9, and std::stoi throws on
"x": the run ends with std::invalid_argument and no onEvent call, and the
mirror holds the two workspaces 10 and 9.  That is neither the state before the
line (3 and 5) nor an application of the whole event (three members).  The
windows event with the same payload does the same to the window collection,
which held window 7 before. -/
theorem bad_key_leaves_part_of_event :
    orderedValue evWorkspacesBadKey = true ∧ orderedValue evWindowsBadKey = true ∧
    ids ipcWithSubscribers.workspaces_ = [3, 5] ∧
    (evWorkspacesBadKey.get "data").map getMemberNames = .ok (.ok ["10", "9", "x"]) ∧
    (parseIPC (parsesTo evWorkspacesBadKey) printNoDouble ipcWithSubscribers "").thrown =
      some .invalid_argument ∧
    (parseIPC (parsesTo evWorkspacesBadKey) printNoDouble ipcWithSubscribers "").calls.length
      = 0 ∧
    ids (parseIPC (parsesTo evWorkspacesBadKey) printNoDouble ipcWithSubscribers
      "").self.workspaces_ = [10, 9] ∧
    ids (dispatch printNoDouble emptyIPC evWindows7).self.windows_ = [7] ∧
    (parseIPC (parsesTo evWindowsBadKey) printNoDouble
      (dispatch printNoDouble emptyIPC evWindows7).self "").thrown = some .invalid_argument ∧
    ids (parseIPC (parsesTo evWindowsBadKey) printNoDouble
      (dispatch printNoDouble emptyIPC evWindows7).self "").self.windows_ = [10, 9] :=
  ⟨by decide, by decide, by decide, rfl, by decide, by decide, by decide, by decide, by decide,
    by decide⟩

/-! ## C12: ids that occur twice -/

theorem idVal_of_idMember (w : Value) (id : Int) (h : idMember w = some (intValue id))
    (hr : minInt ≤ id ∧ id ≤ maxInt) : idVal w = id := by
  cases w with
  | objectValue ms =>
    simp only [idMember] at h
    simp [idVal, idOf_object ms _ h, asInt, hr]
  | _ => simp [idMember] at h

theorem pushWorkspaces_ids (payload : Value) (names : List String) (acc : List Value) :
    ∃ pre suf, names = pre ++ suf ∧
      ids (pushWorkspaces payload names acc).1 = ids acc ++ pre.map keyId := by
  induction names generalizing acc with
  | nil => exact ⟨[], [], rfl, by simp [pushWorkspaces]⟩
  | cons key rest ih =>
    unfold pushWorkspaces
    cases hg : payload.get key with
    | error e => exact ⟨[], key :: rest, rfl, by simp⟩
    | ok ws =>
      cases hs : stoi key with
      | error e => exact ⟨[], key :: rest, rfl, by simp⟩
      | ok id =>
        have hidm := copyWorkspaceFields_idMember ws (objectValue [("id", intValue id)])
        cases hc : copyWorkspaceFields ws (objectValue [("id", intValue id)]) with
        | mk w e =>
          rw [hc] at hidm
          cases e with
          | some e => exact ⟨[], key :: rest, rfl, by simp [hc]⟩
          | none =>
            have hw : idVal w = keyId key := by
              have hk : keyId key = id := by simp [keyId, hs]
              rw [hk]
              exact idVal_of_idMember w id (by rw [hidm]; simp [idMember, find])
                (stoi_range key id hs)
            obtain ⟨pre, suf, hn, hi⟩ := ih (acc ++ [w])
            refine ⟨key :: pre, suf, by rw [hn]; rfl, ?_⟩
            simp only [hc]
            rw [hi, ids_append]
            simp [ids, hw]

theorem pushWindows_ids (payload : Value) (names : List String) (acc : List Value) :
    ∃ pre suf, names = pre ++ suf ∧
      ids (pushWindows payload names acc).1 = ids acc ++ pre.map keyId := by
  induction names generalizing acc with
  | nil => exact ⟨[], [], rfl, by simp [pushWindows]⟩
  | cons key rest ih =>
    unfold pushWindows
    cases hg : payload.get key with
    | error e => exact ⟨[], key :: rest, rfl, by simp⟩
    | ok ws =>
      cases hs : stoi key with
      | error e => exact ⟨[], key :: rest, rfl, by simp⟩
      | ok id =>
        have hidm := copyWindowFields_idMember ws (objectValue [("id", intValue id)])
        cases hc : copyWindowFields ws (objectValue [("id", intValue id)]) with
        | mk w e =>
          rw [hc] at hidm
          cases e with
          | some e => exact ⟨[], key :: rest, rfl, by simp [hc]⟩
          | none =>
            have hw : idVal w = keyId key := by
              have hk : keyId key = id := by simp [keyId, hs]
              rw [hk]
              exact idVal_of_idMember w id (by rw [hidm]; simp [idMember, find])
                (stoi_range key id hs)
            obtain ⟨pre, suf, hn, hi⟩ := ih (acc ++ [w])
            refine ⟨key :: pre, suf, by rw [hn]; rfl, ?_⟩
            simp only [hc]
            rw [hi, ids_append]
            simp [ids, hw]

theorem nodup_prefix_keys (names pre suf : List String) (hn : names = pre ++ suf)
    (h : (names.map keyId).Nodup) : (pre.map keyId).Nodup := by
  rw [hn, List.map_append] at h
  exact (List.nodup_append.1 h).1

theorem forEach_ids (body : Value → Value × Option Exc) (ws : List Value)
    (hb : ∀ w, hasId w = true → idVal (body w).1 = idVal w) (hwf : WellFormed ws) :
    ids (forEach body ws).1 = ids ws := by
  induction ws with
  | nil => rfl
  | cons w rest ih =>
    have hw := hb w (hwf w (List.mem_cons_self _ _))
    have hr := ih (fun x hx => hwf x (List.mem_cons_of_mem _ hx))
    unfold forEach
    cases hbw : body w with
    | mk w1 e =>
      rw [hbw] at hw
      cases e with
      | some e => simpa [ids] using hw
      | none =>
        simp only [ids, List.map_cons] at hr ⊢
        rw [hw, hr]

theorem ids_replace (pre : List Value) (w w1 : Value) (post : List Value)
    (h : idVal w1 = idVal w) : ids (pre ++ w1 :: post) = ids (pre ++ w :: post) := by
  simp [ids, h]

theorem nodup_ids_remove (pre : List Value) (w : Value) (post : List Value)
    (h : (ids (pre ++ w :: post)).Nodup) : (ids (pre ++ post)).Nodup := by
  have hsub : List.Sublist (pre ++ post) (pre ++ w :: post) :=
    List.Sublist.append (List.Sublist.refl pre) (List.sublist_cons_self w post)
  exact h.sublist (hsub.map idVal)

theorem idVal_setFocusedById (idv w : Value) (hw : hasId w = true) :
    idVal (setFocusedById idv w).1 = idVal w := by
  cases hk : idv.asInt with
  | error e => rw [setFocusedById_throw idv e w hw hk]
  | ok k =>
    rw [setFocusedById_entry idv k w hw hk]
    exact idVal_setMember _ _ _ (by decide)

theorem idVal_clearFocused (w : Value) (hw : hasId w = true) :
    idVal (clearFocused w).1 = idVal w := by
  rw [clearFocused_entry w hw]
  exact idVal_setMember _ _ _ (by decide)

theorem mutate_distinct (name : String) (payload : Value) (self : IPC)
    (hm : Mirrored self)
    (hws : (ids self.workspaces_).Nodup) (hwin : (ids self.windows_).Nodup)
    (hkeys : name = "workspaces" ∨ name = "windows" → DistinctKeys payload) :
    (ids (mutate name payload self).1.workspaces_).Nodup ∧
    (ids (mutate name payload self).1.windows_).Nodup := by
  by_cases h1 : name = "workspaces"
  · subst h1
    cases hn : payload.getMemberNames with
    | error e =>
      simp only [mutate, if_true, hn]
      exact ⟨List.nodup_nil, hwin⟩
    | ok names =>
      have hk := hkeys (Or.inl rfl) names hn
      obtain ⟨pre, suf, hsplit, hi⟩ := pushWorkspaces_ids payload names []
      have hnd : (ids (pushWorkspaces payload names []).1).Nodup := by
        rw [hi]; simpa [ids] using nodup_prefix_keys names pre suf hsplit hk
      cases hc : pushWorkspaces payload names [] with
      | mk ws e =>
        rw [hc] at hnd
        cases e with
        | some e =>
          simp only [mutate, if_true, hn, hc]
          exact ⟨hnd, hwin⟩
        | none =>
          simp only [mutate, if_true, hn, hc]
          exact ⟨(ids_perm _ _ (sortById_perm ws)).nodup_iff.2 hnd, hwin⟩
  by_cases h5 : name = "windows"
  · subst h5
    cases hn : payload.getMemberNames with
    | error e =>
      simp only [mutate, hn]
      simp only [String.reduceEq, if_false, if_true]
      exact ⟨hws, List.nodup_nil⟩
    | ok names =>
      have hk := hkeys (Or.inr rfl) names hn
      obtain ⟨pre, suf, hsplit, hi⟩ := pushWindows_ids payload names []
      have hnd : (ids (pushWindows payload names []).1).Nodup := by
        rw [hi]; simpa [ids] using nodup_prefix_keys names pre suf hsplit hk
      simp only [mutate, hn]
      simp only [String.reduceEq, if_false, if_true]
      exact ⟨hws, hnd⟩
  by_cases h2 : name = "active-workspace-changed"
  · subst h2
    cases hid : idOf payload with
    | error e => simpa [mutate, hid] using ⟨hws, hwin⟩
    | ok id =>
      rw [mutate_activeWorkspaceChanged payload self id hm.1 hid]
      refine ⟨?_, hwin⟩
      have : ids (self.workspaces_.map (markActive id)) = ids self.workspaces_ := by
        simp [ids, List.map_map, Function.comp_def, idVal_markActive]
      simpa [this] using hws
  by_cases h3 : name = "workspace-changed"
  · subst h3
    cases hid : idOf payload with
    | error e => simpa [mutate, hid] using ⟨hws, hwin⟩
    | ok id =>
      rcases split_at_first_id id self.workspaces_ with habs | ⟨pre, w, post, hsplit, hpre, hw⟩
      · rw [mutate_workspaceChanged_absent payload self id hm.1 hid habs]
        refine ⟨?_, hwin⟩
        refine (ids_perm _ _ (sortById_perm _)).nodup_iff.2 ?_
        apply nodup_ids_append_new _ _ id hws (not_mem_ids_of_absent _ id hm.1 habs)
        apply idVal_of_idOf
        rw [idOf_withWorkspaceFields]
        exact idOf_newEntry id (idOf_range payload id hid)
      · have hw1 := hm.1
        rw [hsplit] at hw1
        obtain ⟨hwpre, hwe, _⟩ := wellFormed_split pre w post hw1
        rw [mutate_workspaceChanged_present payload self id pre w post hsplit hwpre hpre hw hwe
          hid]
        refine ⟨?_, hwin⟩
        simp only
        rw [ids_replace pre w _ post (by simp [idVal, idOf_withWorkspaceFields]), ← hsplit]
        exact hws
  by_cases h4 : name = "workspace-removed"
  · subst h4
    cases hid : idOf payload with
    | error e => simpa [mutate, hid] using ⟨hws, hwin⟩
    | ok id =>
      rcases split_at_first_id id self.workspaces_ with habs | ⟨pre, w, post, hsplit, hpre, hw⟩
      · rw [mutate_workspaceRemoved_absent payload self id hm.1 hid habs]; exact ⟨hws, hwin⟩
      · have hw1 := hm.1
        rw [hsplit] at hw1
        obtain ⟨hwpre, _, _⟩ := wellFormed_split pre w post hw1
        rw [mutate_workspaceRemoved_present payload self id pre w post hsplit hwpre hpre hw hid]
        refine ⟨?_, hwin⟩
        rw [hsplit] at hws
        exact nodup_ids_remove pre w post hws
  by_cases h6 : name = "window-changed"
  · subst h6
    cases hid : idOf payload with
    | error e => simpa [mutate, hid] using ⟨hws, hwin⟩
    | ok id =>
      rcases split_at_first_id id self.windows_ with habs | ⟨pre, w, post, hsplit, hpre, hw⟩
      · rw [mutate_windowChanged_absent payload self id hm.2 hid habs]
        refine ⟨hws, ?_⟩
        apply nodup_ids_append_new _ _ id hwin (not_mem_ids_of_absent _ id hm.2 habs)
        exact idVal_of_idOf _ id (idOf_windowUpdate payload id [] hid)
      · have hw1 := hm.2
        rw [hsplit] at hw1
        obtain ⟨hwpre, hwe, _⟩ := wellFormed_split pre w post hw1
        rw [mutate_windowChanged_present payload self id pre w post hsplit hwpre hpre hw hwe
          hid]
        refine ⟨hws, ?_⟩
        obtain ⟨ms, rfl⟩ := hasId_isObject w hwe
        simp only
        rw [ids_replace pre (objectValue ms) _ post
          (by rw [idVal_of_idOf _ id (idOf_windowUpdate payload id ms hid),
            idVal_of_idOf _ id hw]), ← hsplit]
        exact hwin
  by_cases h7 : name = "window-closed"
  · subst h7
    cases hid : idOf payload with
    | error e => simpa [mutate, hid] using ⟨hws, hwin⟩
    | ok id =>
      rcases split_at_first_id id self.windows_ with habs | ⟨pre, w, post, hsplit, hpre, hw⟩
      · rw [mutate_windowClosed_absent payload self id hm.2 hid habs]; exact ⟨hws, hwin⟩
      · have hw1 := hm.2
        rw [hsplit] at hw1
        obtain ⟨hwpre, _, _⟩ := wellFormed_split pre w post hw1
        rw [mutate_windowClosed_present payload self id pre w post hsplit hwpre hpre hw hid]
        refine ⟨hws, ?_⟩
        rw [hsplit] at hwin
        exact nodup_ids_remove pre w post hwin
  by_cases h8 : name = "window-focused"
  · subst h8
    cases hid : payload.get "id" with
    | error e => simpa [mutate, hid] using ⟨hws, hwin⟩
    | ok idv =>
      simp only [mutate, hid]
      simp only [String.reduceEq, if_false, if_true]
      refine ⟨hws, ?_⟩
      split
      · rw [forEach_ids _ _ idVal_clearFocused hm.2]; exact hwin
      · rw [forEach_ids _ _ (idVal_setFocusedById idv) hm.2]; exact hwin
  simpa [mutate, h1, h2, h3, h4, h5, h6, h7, h8] using ⟨hws, hwin⟩

theorem dispatch_distinct (valueToString : Rat → String) (self : IPC) (ev : Value)
    (hm : Mirrored self)
    (hws : (ids self.workspaces_).Nodup) (hwin : (ids self.windows_).Nodup)
    (hk : KeysDistinct valueToString ev) :
    (ids (dispatch valueToString self ev).self.workspaces_).Nodup ∧
    (ids (dispatch valueToString self ev).self.windows_).Nodup := by
  rcases dispatch_cases valueToString self ev with ⟨h, _⟩ | ⟨n, p, hn, hp, h, _⟩
  · rw [h]; exact ⟨hws, hwin⟩
  · rw [h]
    exact mutate_distinct n p self hm hws hwin (fun hname => hk n p hn hp hname)

theorem reachable_of_reachableDistinct (valueToString : Rat → String) (self : IPC)
    (h : ReachableDistinct valueToString self) : Reachable valueToString self := by
  induction h with
  | init => exact Reachable.init
  | event s ev _ _ ih => exact Reachable.event s ev ih
  | register s name h _ ih => exact Reachable.register s name h ih
  | unregister s h _ ih => exact Reachable.unregister s h ih

theorem keysDistinct_mkEvent (valueToString : Rat → String) (name : String) (payload : Value)
    (h : DistinctKeys payload) : KeysDistinct valueToString (mkEvent name payload) := by
  intro n p _ hp _
  have : p = payload := by
    simpa [mkEvent, Value.get, find] using hp.symm
  rw [this]; exact h

theorem distinctKeys_object (ms : List (String × Value))
    (h : ((ms.map Prod.fst).map keyId).Nodup) : DistinctKeys (objectValue ms) := by
  intro names hn
  have : names = ms.map Prod.fst := by simpa [getMemberNames] using hn.symm
  rw [this]; exact h

theorem reachableDistinct_example :
    ReachableDistinct printNoDouble
      (dispatch printNoDouble (dispatch printNoDouble emptyIPC evWorkspaces35).self
        evWindows7).self :=
  ReachableDistinct.event _ evWindows7
    (ReachableDistinct.event emptyIPC evWorkspaces35 ReachableDistinct.init
      (keysDistinct_mkEvent _ _ _ (distinctKeys_object _ (by decide))))
    (keysDistinct_mkEvent _ _ _ (distinctKeys_object _ (by decide)))

/-- C12, counterexample.  The line {"event":"workspaces","data":{"03":{},"3":{}}}
is applied to the empty mirror without an exception and leaves two workspaces
with id 3, because std::stoi reads 3 from the key "03" and from the key "3";
the line {"event":"windows","data":{"07":{},"7":{}}} leaves two windows with
id 7 in the same way. -/
theorem same_int_keys_give_one_id_twice :
    orderedValue evWorkspacesSameId = true ∧ orderedValue evWindowsSameId = true ∧
    Reachable printNoDouble (dispatch printNoDouble emptyIPC evWorkspacesSameId).self ∧
    (dispatch printNoDouble emptyIPC evWorkspacesSameId).thrown = none ∧
    ids (dispatch printNoDouble emptyIPC evWorkspacesSameId).self.workspaces_ = [3, 3] ∧
    ¬ (ids (dispatch printNoDouble emptyIPC evWorkspacesSameId).self.workspaces_).Nodup ∧
    (dispatch printNoDouble emptyIPC evWindowsSameId).thrown = none ∧
    ids (dispatch printNoDouble emptyIPC evWindowsSameId).self.windows_ = [7, 7] ∧
    ¬ (ids (dispatch printNoDouble emptyIPC evWindowsSameId).self.windows_).Nodup :=
  ⟨by decide, by decide, Reachable.event emptyIPC evWorkspacesSameId Reachable.init,
    by decide, by decide, by decide, by decide, by decide, by decide⟩

/-- C12, amended.  For every sequence of events applied by parseIPC starting
from the empty mirror in which the member names of every workspaces and
windows payload convert to pairwise different ints, after each event (whether
it was applied or ended with an exception) no two workspaces in the mirror
have the same id and no two windows in the mirror have the same id. -/
theorem ids_distinct_when_keys_distinct (valueToString : Rat → String) (self : IPC)
    (h : ReachableDistinct valueToString self) :
    (ids self.workspaces_).Nodup ∧ (ids self.windows_).Nodup := by
  induction h with
  | init => exact ⟨List.nodup_nil, List.nodup_nil⟩
  | event s ev hs hk ih =>
    exact dispatch_distinct valueToString s ev
      (reachable_mirrored valueToString s (reachable_of_reachableDistinct valueToString s hs))
      ih.1 ih.2 hk
  | register s name h _ ih => cases h <;> exact ih
  | unregister s h _ ih => cases h <;> exact ih

/-- C12, witness: the amended statement on the mirror reached by the workspaces
event with the keys "3" and "5" followed by the windows event with the key
"7". -/
theorem ids_distinct_when_keys_distinct_witness :
    ReachableDistinct printNoDouble
      (dispatch printNoDouble (dispatch printNoDouble emptyIPC evWorkspaces35).self
        evWindows7).self ∧
    (ids (dispatch printNoDouble (dispatch printNoDouble emptyIPC evWorkspaces35).self
      evWindows7).self.workspaces_).Nodup ∧
    (ids (dispatch printNoDouble (dispatch printNoDouble emptyIPC evWorkspaces35).self
      evWindows7).self.windows_).Nodup :=
  ⟨reachableDistinct_example,
    (ids_distinct_when_keys_distinct printNoDouble _ reachableDistinct_example).1,
    (ids_distinct_when_keys_distinct printNoDouble _ reachableDistinct_example).2⟩

end Fht
